import Mathlib

/-!
# Verification of the snappy-framed streaming container (Rust crate)

A shallow embedding of the crate's core:

* `src/masked_crc.rs` — the CRC masking transform (`mask`, `masked_crc`);
* `src/buffer.rs`     — the growable I/O `Buffer` with read/write cursors;
* `src/read.rs`       — `ensure_buffered`, `next_chunk`, and the
  `SnappyFramedDecoder` read loop;
* `src/write.rs`      — the `SnappyFramedEncoder` write loop;
* `src/consts.rs`     — the wire-format constants.

Representation choices:

* A byte region (Rust `Vec<u8>` or slice `&[u8]`) is modelled as `Bytes`:
  an explicit length `size` together with a total indexing function `byte`
  (values at indices `≥ size` are irrelevant; `toList` extracts the real
  content).  This is the standard functional-array view of a slice.
* Machine integers are `Nat` with explicit `% 2 ^ 32` / `&&& 0xFF`
  truncation exactly where the Rust code wraps or truncates.
* The external collaborators (the raw Castagnoli CRC-32 primitive and the
  snappy block compressor/decompressor) are out of scope for the crate and
  are treated as parameters; the raw CRC is additionally modelled from the
  spec so that the documented test vectors can be checked.
* Rust `io::Result` values become `Res α`; panics (`assert!`, `.expect`)
  become the distinguished `Res.panicked` outcome, kept separate from
  `Res.ioError` because Rust panics do not return an error to the caller.
-/

set_option maxRecDepth 100000

namespace SnappyFramed

/-- A byte region (Rust `Vec<u8>` / `&[u8]`): a length plus an indexing
function.  Only indices `< size` are meaningful. -/
structure Bytes where
  size : Nat
  byte : Nat → Nat

namespace Bytes

/-- The content of a byte region, as a list. -/
def toList (b : Bytes) : List Nat :=
  (List.range b.size).map b.byte

/-- Build a byte region from a list. -/
def ofList (l : List Nat) : Bytes :=
  ⟨l.length, fun i => l.getD i 0⟩

/-- The empty byte region. -/
def empty : Bytes := ⟨0, fun _ => 0⟩

/-- The first `n` bytes (like `&b[..n]` clipped to the length). -/
def take (b : Bytes) (n : Nat) : Bytes :=
  ⟨min n b.size, b.byte⟩

/-- All but the first `n` bytes (like `&b[n..]` clipped to the length). -/
def drop (b : Bytes) (n : Nat) : Bytes :=
  ⟨b.size - n, fun i => b.byte (n + i)⟩

/-- Concatenation of byte regions. -/
def append (a b : Bytes) : Bytes :=
  ⟨a.size + b.size, fun i => if i < a.size then a.byte i else b.byte (i - a.size)⟩

end Bytes


/-! ## Masked CRC (`src/masked_crc.rs`)

The raw CRC-32C primitive (`crc::crc32::checksum_castagnoli`) is an
external crate, out of the repository's scope.  It is modelled from the
spec: "the standard Castagnoli CRC-32", i.e. the reflected CRC-32 with
polynomial `0x82F63B78`, initial value `0xFFFFFFFF` and final inversion.
The documented test vectors (RFC 3720 and the crate's own test values)
validate the model below. -/

/-- One bit-step of the reflected CRC-32C: shift right, conditionally
xoring the reflected Castagnoli polynomial. -/
def crcRound (crc : Nat) : Nat :=
  if crc &&& 1 = 1 then (crc >>> 1) ^^^ 0x82F63B78 else crc >>> 1

/-- One byte-step of the reflected CRC-32C. -/
def crcByteStep (crc b : Nat) : Nat :=
  crcRound^[8] (crc ^^^ (b &&& 0xFF))

/-- Modelled from the spec: the external raw CRC-32C (Castagnoli)
primitive `checksum(bytes) -> u32` (the `crc` crate's
`checksum_castagnoli`), "treated as an opaque, standards-compliant
function".  Standard reflected CRC-32C. -/
def checksum_castagnoli (b : Bytes) : Nat :=
  (b.toList.foldl crcByteStep 0xFFFFFFFF) ^^^ 0xFFFFFFFF

/-- `u32::rotate_right` on a 32-bit value. -/
def rotate_right32 (x n : Nat) : Nat :=
  (((x % 2 ^ 32) >>> (n % 32)) ||| ((x % 2 ^ 32) <<< ((32 - n % 32) % 32))) % 2 ^ 32

/-- `fn mask(crc: u32) -> u32` from `src/masked_crc.rs`:
`crc.rotate_right(15).wrapping_add(0xA282EAD8)`. -/
def mask (crc : Nat) : Nat :=
  (rotate_right32 crc 15 + 0xA282EAD8) % 2 ^ 32

/-- `pub fn masked_crc(bytes: &[u8]) -> u32` from `src/masked_crc.rs`. -/
def masked_crc (bytes : Bytes) : Nat :=
  mask (checksum_castagnoli bytes)

/-! ## Wire-format constants (`src/consts.rs`) -/

/-- The size of a chunk header. -/
def HEADER_SIZE : Nat := 4

/-- The size of a chunk CRC. -/
def CRC_SIZE : Nat := 4

/-- The maximum size of the uncompressed data stored in a chunk. -/
def MAX_UNCOMPRESSED_CHUNK : Nat := 65536

/-! ## The I/O `Buffer` (`src/buffer.rs`)

`Buffer { buffer: Vec<u8>, begin: usize, end: usize }`.  The backing
`Vec<u8>` is a `Bytes`; `end` is rendered `end_` because `end` is a Lean
keyword.  Slice-returning operations return the slice as a `Bytes` next to
the updated buffer.  `set_data` models its `assert!` by returning `none`
(a panic) when the data does not fit. -/

structure Buffer where
  buffer : Bytes
  begin : Nat
  end_ : Nat

namespace Buffer

/-- `Buffer::new(sz)`: `vec![0; sz]`, `begin = end = 0`. -/
def new (sz : Nat) : Buffer := ⟨⟨sz, fun _ => 0⟩, 0, 0⟩

/-- `capacity() = buffer.len()`. -/
def capacity (b : Buffer) : Nat := b.buffer.size

/-- `buffered() = end - begin`. -/
def buffered (b : Buffer) : Nat := b.end_ - b.begin

/-- `empty() = buffered() == 0`. -/
def empty (b : Buffer) : Bool := b.buffered == 0

/-- `move_data_to_start()`: if `begin > 0`, copy the unread region
`[begin, end)` down to offset 0 (bytes at offsets `≥ buffered()` keep
their old values), then `end = buffered()`, `begin = 0`. -/
def move_data_to_start (b : Buffer) : Buffer :=
  if 0 < b.begin then
    { buffer := ⟨b.buffer.size,
        fun i => if i < b.buffered then b.buffer.byte (b.begin + i) else b.buffer.byte i⟩,
      begin := 0,
      end_ := b.buffered }
  else b

/-- The length of the free tail `&mut buffer[end..]` returned by
`space_to_fill()`. -/
def space_to_fill (b : Buffer) : Nat := b.buffer.size - b.end_

/-- A caller writing `chunk` through the mutable slice returned by
`space_to_fill()` (e.g. `source.read(space)`): the bytes land at offsets
`[end, end + chunk.size)`; the cursors do not move (that is `added`). -/
def write_space (b : Buffer) (chunk : Bytes) : Buffer :=
  { b with buffer := ⟨b.buffer.size,
      fun i => if b.end_ ≤ i ∧ i < b.end_ + chunk.size
               then chunk.byte (i - b.end_) else b.buffer.byte i⟩ }

/-- `set_data(data)`: `assert!(data.len() <= buffer.len())` (panic modelled
as `none`), copy `data` to offset 0, `begin = 0`, `end = data.len()`. -/
def set_data (b : Buffer) (data : Bytes) : Option Buffer :=
  if data.size ≤ b.buffer.size then
    some { buffer := ⟨b.buffer.size,
             fun i => if i < data.size then data.byte i else b.buffer.byte i⟩,
           begin := 0,
           end_ := data.size }
  else none

/-- `added(bytes)`: `end += bytes`. -/
def added (b : Buffer) (bytes : Nat) : Buffer := { b with end_ := b.end_ + bytes }

/-- `consume(bytes)`: return the slice `&buffer[begin..begin+bytes]` and
advance `begin += bytes`. -/
def consume (b : Buffer) (bytes : Nat) : Bytes × Buffer :=
  (⟨bytes, fun i => b.buffer.byte (b.begin + i)⟩, { b with begin := b.begin + bytes })

/-- `copy_out_and_consume(bytes, dest)`: copy the next `bytes` unread bytes
out (returned here as a `Bytes`) and advance `begin += bytes`. -/
def copy_out_and_consume (b : Buffer) (bytes : Nat) : Bytes × Buffer :=
  (⟨bytes, fun i => b.buffer.byte (b.begin + i)⟩, { b with begin := b.begin + bytes })

/-- `add_capacity(bytes)`: extend the backing vector with `bytes` zeros. -/
def add_capacity (b : Buffer) (bytes : Nat) : Buffer :=
  { b with buffer := ⟨b.buffer.size + bytes,
      fun i => if i < b.buffer.size then b.buffer.byte i else 0⟩ }

/-- The unread region `[begin, end)` as a list. -/
def unread (b : Buffer) : List Nat :=
  (List.range b.buffered).map (fun i => b.buffer.byte (b.begin + i))

/-- The Buffer invariant: `begin ≤ end ≤ capacity`. -/
def inv (b : Buffer) : Prop := b.begin ≤ b.end_ ∧ b.end_ ≤ b.capacity

end Buffer

/-! ## Buffer operation sequences (claim C8) -/

/-- One call of the `Buffer` API, with its argument.  `space_to_fill`
carries the bytes the caller subsequently writes through the returned
mutable slice. -/
inductive BufOp where
| new (sz : Nat)
| move_data_to_start
| space_to_fill (written : Bytes)
| set_data (data : Bytes)
| added (n : Nat)
| consume (n : Nat)
| copy_out_and_consume (n : Nat)
| add_capacity (n : Nat)

/-- The stated precondition of each call (claim C8):
`added`: `end + n ≤ capacity`; `set_data`: `length ≤ capacity`;
`consume` / `copy_out_and_consume`: `n ≤ buffered`. -/
def BufOp.precond (b : Buffer) : BufOp → Prop
| .new _ => True
| .move_data_to_start => True
| .space_to_fill _ => True
| .set_data d => d.size ≤ b.capacity
| .added n => b.end_ + n ≤ b.capacity
| .consume n => n ≤ b.buffered
| .copy_out_and_consume n => n ≤ b.buffered
| .add_capacity _ => True

/-- The state transition of each call. -/
def BufOp.step (b : Buffer) : BufOp → Buffer
| .new sz => Buffer.new sz
| .move_data_to_start => b.move_data_to_start
| .space_to_fill w => b.write_space w
| .set_data d => (b.set_data d).getD b
| .added n => b.added n
| .consume n => (b.consume n).2
| .copy_out_and_consume n => (b.copy_out_and_consume n).2
| .add_capacity n => b.add_capacity n

/-- Run a sequence of calls. -/
def BufOp.runOps (b : Buffer) : List BufOp → Buffer
| [] => b
| op :: ops => runOps (op.step b) ops

/-- Every call's stated precondition holds along the sequence. -/
def BufOp.precondsHold (b : Buffer) : List BufOp → Prop
| [] => True
| op :: ops => op.precond b ∧ precondsHold (op.step b) ops

/-! ## Results, errors and panics

Rust `io::Result<α>` plus the panic channel.  The decoder constructs
`io::Error` values at the sites modelled by `IoErr`; `.expect(..)` and
`assert!` panics are `Res.panicked`, a separate outcome because a Rust
panic does not return an error value to the caller.  `PanicKind.outOfFuel`
is an artifact of fuel-based recursion; with the fuel chosen by `decode`
it is never reached. -/

/-- The `io::Error`s the decoder creates. -/
inductive IoErr where
| incompleteChunk
| crcTruncated
| crcMismatch (expected actual : Nat)
deriving DecidableEq

/-- The panic sites of the decoder. -/
inductive PanicKind where
| missingChunkData
| decompressionFailure
| setDataAssert
| outOfFuel
deriving DecidableEq

/-- An `io::Result<α>` or a panic. -/
inductive Res (α : Type) where
| ok (a : α)
| ioError (e : IoErr)
| panicked (p : PanicKind)
deriving DecidableEq

/-! ## Byte sources

A blocking byte source (`R: Read`) is modelled as the schedule of its
read results: a list of byte blocks.  Each `read(space)` call yields the
next block, clipped to the free space (the unread remainder of a clipped
block stays at the front).  An exhausted source (or an empty block)
yields 0 bytes, which the Rust contract allows to mean
temporary-or-permanent end of data.  A one-shot source for a stream `s`
is `[s]`; a one-byte-at-a-time source is the list of its singletons. -/

abbrev Src : Type := List Bytes

/-- One `source.read(space)` call. -/
def readSource : Src → Nat → Bytes × Src
| [], _ => (Bytes.empty, [])
| blk :: rest, space =>
  if blk.size ≤ space then (blk, rest) else (blk.take space, blk.drop space :: rest)

/-- All bytes the source will ever deliver, flattened. -/
def flatSrc (src : Src) : List Nat := (src.map Bytes.toList).flatten

/-- Total byte count of the source. -/
def srcSize (src : Src) : Nat := (src.map Bytes.size).sum

/-! ## The chunk reader (`impl Buffer` in `src/read.rs`) -/

/-- The fill loop inside `ensure_buffered`: repeatedly read from the
source into the free tail (`space_to_fill` + `added`) until the buffer is
full or a read returns 0 bytes.  Each productive iteration shrinks the
free space by at least one byte, so `space_to_fill + 1` fuel always
suffices; the fuel only makes the recursion structural. -/
def fillLoop : Nat → Buffer → Src → Buffer × Src
| 0, b, src => (b, src)
| fuel + 1, b, src =>
  if b.space_to_fill = 0 then (b, src)
  else
    let (chunk, src') := readSource src b.space_to_fill
    let b' := (b.write_space chunk).added chunk.size
    if chunk.size = 0 then (b', src') else fillLoop fuel b' src'

/-- `Buffer::ensure_buffered(bytes, source)` from `src/read.rs`: grow the
buffer if the request exceeds its capacity, compact, fill from the
source, then decide: no data at all ⇒ `Ok(None)` (clean end of stream);
partial data ⇒ `Err("Incomplete Snappy chunk")`; else consume and return
the requested bytes. -/
def ensure_buffered (b : Buffer) (bytes : Nat) (source : Src) :
    Res (Option Bytes) × Buffer × Src :=
  if b.buffered < bytes then
    let b := if bytes > b.capacity then b.add_capacity (bytes - b.capacity) else b
    let b := b.move_data_to_start
    let (b, source) := fillLoop (b.space_to_fill + 1) b source
    if b.buffered = 0 then (.ok none, b, source)
    else if b.buffered < bytes then (.ioError .incompleteChunk, b, source)
    else
      let (data, b) := b.consume bytes
      (.ok (some data), b, source)
  else
    let (data, b) := b.consume bytes
    (.ok (some data), b, source)

/-- A framed chunk (`struct Chunk` in `src/read.rs`): a type byte and a
borrowed view of the body. -/
structure Chunk where
  chunk_type : Nat
  data : Bytes

/-- `Chunk::crc()`: the little-endian CRC field, or
`Err("Snappy CRC truncated")` when the body is shorter than the CRC. -/
def Chunk.crc (c : Chunk) : Res Nat :=
  if c.data.size < CRC_SIZE then .ioError .crcTruncated
  else .ok (c.data.byte 0 ||| c.data.byte 1 <<< 8 |||
            c.data.byte 2 <<< 16 ||| c.data.byte 3 <<< 24)

/-- `check_crc(expected, data)` from `src/read.rs`. -/
def check_crc (expected : Nat) (data : Bytes) : Res Unit :=
  let actual := masked_crc data
  if expected = actual then .ok ()
  else .ioError (.crcMismatch expected actual)

/-- `Buffer::next_chunk(source)` from `src/read.rs`: read a 4-byte header
(clean end of stream propagates), parse the type byte and the 24-bit
little-endian length, then require the full body —
`.expect("Snappy chunk header with missing data")` panics when the source
ended cleanly right after the header. -/
def next_chunk (b : Buffer) (source : Src) : Res (Option Chunk) × Buffer × Src :=
  match ensure_buffered b HEADER_SIZE source with
  | (.ok none, b, source) => (.ok none, b, source)
  | (.ioError e, b, source) => (.ioError e, b, source)
  | (.panicked p, b, source) => (.panicked p, b, source)
  | (.ok (some chunk_header), b, source) =>
    let chunk_type := chunk_header.byte 0
    let chunk_len := chunk_header.byte 3 <<< 16 ||| chunk_header.byte 2 <<< 8 |||
                     chunk_header.byte 1
    match ensure_buffered b chunk_len source with
    | (.ok none, b, source) => (.panicked .missingChunkData, b, source)
    | (.ioError e, b, source) => (.ioError e, b, source)
    | (.panicked p, b, source) => (.panicked p, b, source)
    | (.ok (some data), b, source) =>
      (.ok (some ⟨chunk_type, data⟩), b, source)

/-! ## The decoder (`SnappyFramedDecoder` in `src/read.rs`)

The external snappy block decompressor
(`snappy::uncompress(&[u8]) -> Result<Vec<u8>>`) is out of scope and is a
parameter `uncompress : Bytes → Except Unit Bytes`. -/

/-- Should we verify or ignore the CRC when reading? -/
inductive CrcMode where
| Verify
| Ignore
deriving DecidableEq

structure SnappyFramedDecoder where
  source : Src
  input : Buffer
  output : Buffer
  mode : CrcMode

/-- `SnappyFramedDecoder::new(source, mode)`: a 1 MiB input buffer and a
`MAX_UNCOMPRESSED_CHUNK`-byte output buffer. -/
def SnappyFramedDecoder.new (source : Src) (mode : CrcMode) : SnappyFramedDecoder :=
  ⟨source, Buffer.new (1024 * 1024), Buffer.new MAX_UNCOMPRESSED_CHUNK, mode⟩

/-- The chunk loop inside `read` (`loop { match try!(next_chunk) ... } `):
returns `ok false` for clean end of stream (`read` then returns 0 bytes),
`ok true` once a data chunk has filled the output buffer.  Compressed
(`0x00`) chunks: CRC field extraction, decompression
(`.expect("Snappy decompression failure")` panics on failure), optional
CRC verification, `set_data` (whose `assert!` panics when the payload
exceeds the output buffer).  Uncompressed (`0x01`) chunks: the same
without decompression.  All other types (`0x02..=0x7F`, `0x80..=0xFD`,
`0xFE`, `0xFF`) are skipped.  One unit of fuel per chunk. -/
def chunkLoop (uncompress : Bytes → Except Unit Bytes) :
    Nat → SnappyFramedDecoder → Res Bool × SnappyFramedDecoder
| 0, st => (.panicked .outOfFuel, st)
| fuel + 1, st =>
  match next_chunk st.input st.source with
  | (.ok none, input, source) => (.ok false, { st with input := input, source := source })
  | (.ioError e, input, source) => (.ioError e, { st with input := input, source := source })
  | (.panicked p, input, source) => (.panicked p, { st with input := input, source := source })
  | (.ok (some chunk), input, source) =>
    let st := { st with input := input, source := source }
    if chunk.chunk_type = 0x00 then
      match chunk.crc with
      | .ioError e => (.ioError e, st)
      | .panicked p => (.panicked p, st)
      | .ok crc =>
        let compressed := chunk.data.drop CRC_SIZE
        match uncompress compressed with
        | .error _ => (.panicked .decompressionFailure, st)
        | .ok data =>
          match (if st.mode = CrcMode.Verify then check_crc crc data else .ok ()) with
          | .ioError e => (.ioError e, st)
          | .panicked p => (.panicked p, st)
          | .ok _ =>
            match st.output.set_data data with
            | none => (.panicked .setDataAssert, st)
            | some output => (.ok true, { st with output := output })
    else if chunk.chunk_type = 0x01 then
      match chunk.crc with
      | .ioError e => (.ioError e, st)
      | .panicked p => (.panicked p, st)
      | .ok crc =>
        let data := chunk.data.drop CRC_SIZE
        match (if st.mode = CrcMode.Verify then check_crc crc data else .ok ()) with
        | .ioError e => (.ioError e, st)
        | .panicked p => (.panicked p, st)
        | .ok _ =>
          match st.output.set_data data with
          | none => (.panicked .setDataAssert, st)
          | some output => (.ok true, { st with output := output })
    else
      chunkLoop uncompress fuel st

/-- `SnappyFramedDecoder::read(buf)` (the `Read` impl in `src/read.rs`):
if the output buffer is empty, run the chunk loop (clean end of stream ⇒
`Ok(0)`, modelled as `ok []`); then copy
`min(output.buffered(), buf.len())` bytes out.  Returns the bytes copied
into the caller's buffer. -/
def SnappyFramedDecoder.read (uncompress : Bytes → Except Unit Bytes) (fuel : Nat)
    (st : SnappyFramedDecoder) (bufLen : Nat) : Res (List Nat) × SnappyFramedDecoder :=
  if st.output.empty then
    match chunkLoop uncompress fuel st with
    | (.ok false, st) => (.ok [], st)
    | (.ioError e, st) => (.ioError e, st)
    | (.panicked p, st) => (.panicked p, st)
    | (.ok true, st) =>
      let to_copy := min st.output.buffered bufLen
      let (bytes, output) := st.output.copy_out_and_consume to_copy
      (.ok bytes.toList, { st with output := output })
  else
    let to_copy := min st.output.buffered bufLen
    let (bytes, output) := st.output.copy_out_and_consume to_copy
    (.ok bytes.toList, { st with output := output })

/-- The standard `read_to_end` driver: call `read` with a
`MAX_UNCOMPRESSED_CHUNK`-byte destination until it returns 0 bytes,
accumulating the output; errors and panics propagate. -/
def read_to_end (uncompress : Bytes → Except Unit Bytes) :
    Nat → Nat → SnappyFramedDecoder → List Nat → Res (List Nat) × SnappyFramedDecoder
| 0, _, st, _ => (.panicked .outOfFuel, st)
| fuel + 1, innerFuel, st, acc =>
  match SnappyFramedDecoder.read uncompress innerFuel st MAX_UNCOMPRESSED_CHUNK with
  | (.ok [], st) => (.ok acc, st)
  | (.ok bs, st) => read_to_end uncompress fuel innerFuel st (acc ++ bs)
  | (.ioError e, st) => (.ioError e, st)
  | (.panicked p, st) => (.panicked p, st)

/-- Decode everything a source will deliver, from a fresh decoder.  The
fuel `srcSize source + 2` bounds both loop depths: every chunk occupies
at least 4 source bytes. -/
def decodeSource (uncompress : Bytes → Except Unit Bytes) (mode : CrcMode)
    (source : Src) : Res (List Nat) :=
  let st := SnappyFramedDecoder.new source mode
  (read_to_end uncompress (srcSize source + 2) (srcSize source + 2) st []).1

/-- Decode a byte stream through a one-shot source. -/
def decode (uncompress : Bytes → Except Unit Bytes) (mode : CrcMode)
    (stream : Bytes) : Res (List Nat) :=
  decodeSource uncompress mode [stream]

/-! ## The encoder (`src/write.rs`)

The external snappy block compressor (`snappy::compress`) is a parameter
`compress : Bytes → Bytes`.  The sink is modelled by returning the bytes
written to it. -/

/-- Appears at the front of all Snappy framed streams. -/
def STREAM_IDENTIFIER : List Nat :=
  [0xFF, 0x06, 0x00, 0x00, 0x73, 0x4E, 0x61, 0x50, 0x70, 0x59]

/-- One iteration of the encoder's write loop (`src/write.rs`): compress
the block, then emit the 8-byte `header_and_crc` (type byte 0, 24-bit
little-endian length `CRC_SIZE + compressed.len()`, 32-bit little-endian
masked CRC of the uncompressed block) followed by the compressed bytes. -/
def frameFor (compress : Bytes → Bytes) (data : Bytes) : Bytes :=
  let compressed := compress data
  let chunk_len := CRC_SIZE + compressed.size
  let crc := masked_crc data
  let header_and_crc := Bytes.ofList
    [0,
     chunk_len &&& 0x0000FF,
     (chunk_len &&& 0x00FF00) >>> 8,
     (chunk_len &&& 0xFF0000) >>> 16,
     crc &&& 0x000000FF,
     (crc &&& 0x0000FF00) >>> 8,
     (crc &&& 0x00FF0000) >>> 16,
     (crc &&& 0xFF000000) >>> 24]
  header_and_crc.append compressed

/-- `buf.chunks(MAX_UNCOMPRESSED_CHUNK)`: the consecutive blocks of at
most `MAX_UNCOMPRESSED_CHUNK` bytes.  Fuel-structural; `buf.size + 1`
fuel always suffices. -/
def splitChunks : Nat → Bytes → List Bytes
| 0, _ => []
| fuel + 1, buf =>
  if buf.size = 0 then []
  else buf.take MAX_UNCOMPRESSED_CHUNK ::
       splitChunks fuel (buf.drop MAX_UNCOMPRESSED_CHUNK)

/-- Concatenate byte regions. -/
def joinBytes (l : List Bytes) : Bytes := l.foldr Bytes.append Bytes.empty

/-- `SnappyFramedEncoder::write(buf)` (the `Write` impl in
`src/write.rs`): frame every block of `buf.chunks(MAX_UNCOMPRESSED_CHUNK)`
in order, and return `Ok(buf.len())`.  The first component is everything
written to the sink. -/
def SnappyFramedEncoder.write (compress : Bytes → Bytes) (buf : Bytes) : Bytes × Nat :=
  (joinBytes ((splitChunks (buf.size + 1) buf).map (frameFor compress)), buf.size)

/-- `SnappyFramedEncoder::new(dest)` followed by `write(buf)`: the
identifier chunk then the framed blocks — the full encoded stream. -/
def encode (compress : Bytes → Bytes) (buf : Bytes) : Bytes :=
  (Bytes.ofList STREAM_IDENTIFIER).append (SnappyFramedEncoder.write compress buf).1

/-! ## Observers and concrete instances used by individual claims -/

/-- The outcome of a `Res (Option α)` with the payload erased (payloads
containing functions have no decidable equality; the shape does). -/
def resShapeOpt {α : Type} : Res (Option α) → Res (Option Unit)
| .ok none => .ok none
| .ok (some _) => .ok (some ())
| .ioError e => .ioError e
| .panicked p => .panicked p

/-- The type byte of a successfully read chunk (0 otherwise). -/
def chunkTypeOf : Res (Option Chunk) → Nat
| .ok (some c) => c.chunk_type
| _ => 0

/-- The body size of a successfully read chunk (0 otherwise). -/
def chunkBodySize : Res (Option Chunk) → Nat
| .ok (some c) => c.data.size
| _ => 0

/-- The body of a successfully read chunk (empty otherwise). -/
def chunkBody : Res (Option Chunk) → Bytes
| .ok (some c) => c.data
| _ => Bytes.empty

/-- A block "compressor" that prepends `2^24 - 4` zero bytes.  It is
injective and `uncompressBad` below is its left inverse, yet its output
overflows the 24-bit chunk-length field of the wire format. -/
def compressBad : Bytes → Bytes :=
  fun b => ⟨(2 ^ 24 - 4) + b.size,
            fun i => if i < 2 ^ 24 - 4 then 0 else b.byte (i - (2 ^ 24 - 4))⟩

/-- The left inverse of `compressBad`: drop the zero padding. -/
def uncompressBad : Bytes → Except Unit Bytes :=
  fun b => .ok (b.drop (2 ^ 24 - 4))

/-- A one-byte input for the overflow counterexamples. -/
def byte42 : Bytes := Bytes.ofList [42]

/-- A type `0x01` (uncompressed) chunk whose payload is 65537 bytes —
one more than `MAX_UNCOMPRESSED_CHUNK`: header `[1, 5, 0, 1]` declares a
body of `0x010005 = 65541` bytes (4 CRC bytes + 65537 payload bytes), and
the body is fully present (all zeros). -/
def oversizedChunkStream : Bytes :=
  ⟨4 + 65541, fun i => if i = 0 then 1 else if i = 1 then 5 else if i = 3 then 1 else 0⟩

/-- A 65537-byte decompression result (for the compressed-chunk variant
of the oversized-payload counterexample). -/
def bigPayload : Bytes := ⟨65537, fun _ => 0⟩

/-- A minimal well-formed compressed (type `0x00`) chunk stream: header
`[0, 5, 0, 0]`, 4 CRC bytes, a 1-byte payload. -/
def smallCompressedStream : Bytes := Bytes.ofList [0x00, 5, 0, 0, 0, 0, 0, 0, 9]

/-- A source all of whose scheduled reads deliver at least one byte (a
source that never signals a spurious mid-stream end of data). -/
def goodSrc (src : Src) : Prop := ∀ x ∈ src, 0 < x.size

/-- All bytes still reachable from a buffer-and-source pair: the unread
region of the buffer followed by everything the source will deliver. -/
def availOf (b : Buffer) (src : Src) : List Nat := b.unread ++ flatSrc src

/-- The 24-bit little-endian chunk length at offsets 1..3 of a header. -/
def parse24 (l : List Nat) : Nat :=
  l.getD 3 0 <<< 16 ||| l.getD 2 0 <<< 8 ||| l.getD 1 0

/-- The well-formedness of a decoder state: both buffers satisfy the
Buffer invariant, the source never yields spurious zero-length reads, and
the output buffer still has its original `MAX_UNCOMPRESSED_CHUNK`
capacity (the decoder never grows it). -/
def goodState (st : SnappyFramedDecoder) : Prop :=
  st.input.inv ∧ st.output.inv ∧ goodSrc st.source ∧
  st.output.buffer.size = MAX_UNCOMPRESSED_CHUNK

/-- The bytes still reachable by the decoder's chunk reader. -/
def availSt (st : SnappyFramedDecoder) : List Nat := availOf st.input st.source

/-- The 32-bit little-endian CRC field at the front of a chunk body. -/
def parse32 (l : List Nat) : Nat :=
  l.getD 0 0 ||| l.getD 1 0 <<< 8 ||| l.getD 2 0 <<< 16 ||| l.getD 3 0 <<< 24

/-- The little-endian 24-bit encoding of a chunk body length. -/
def le24 (n : Nat) : List Nat := [n % 256, n / 256 % 256, n / 65536 % 256]

/-- A well-formed chunk with type byte `t` carrying `body`: a 4-byte
header (type byte, then the 24-bit little-endian body length) followed by
the body bytes. -/
def chunkListOf (t : Nat) (body : List Nat) : List Nat :=
  t :: (le24 body.length ++ body)

/-- The little-endian 32-bit encoding of a CRC field. -/
def le32 (n : Nat) : List Nat :=
  [n % 256, n / 256 % 256, n / 65536 % 256, n / 16777216 % 256]

/-- The frame the specification describes for one block (the spec-side
definition, to be compared with the source-side `frameFor`): type byte
`0x00`, the 24-bit little-endian length field holding 4 plus the
compressed length, the 4-byte little-endian masked CRC of the
uncompressed block, then the compressed bytes. -/
def specFrameFor (compress : Bytes → Bytes) (block : Bytes) : List Nat :=
  0x00 :: (le24 (CRC_SIZE + (compress block).size) ++
    (le32 (masked_crc block) ++ (compress block).toList))

/-! ## Byte-region lemmas -/

namespace Bytes

@[simp]
theorem length_toList (b : Bytes) : b.toList.length = b.size := by
  simp [toList]

theorem getD_toList (b : Bytes) (i : Nat) (h : i < b.size) :
    b.toList.getD i 0 = b.byte i := by
  simp [toList, List.getD_eq_getElem?_getD, List.getElem?_map, List.getElem?_range, h]

@[simp]
theorem toList_ofList (l : List Nat) : (ofList l).toList = l := by
  apply List.ext_getElem
  · simp [ofList]
  · intro i h1 h2
    simp [ofList, toList, List.getD_eq_getElem?_getD]
    simp [ofList] at h1
    rw [List.getElem?_eq_getElem h2]
    rfl

@[simp]
theorem size_ofList (l : List Nat) : (ofList l).size = l.length := rfl

@[simp]
theorem toList_empty : (empty).toList = [] := rfl

@[simp]
theorem size_take (b : Bytes) (n : Nat) : (b.take n).size = min n b.size := rfl

@[simp]
theorem size_drop (b : Bytes) (n : Nat) : (b.drop n).size = b.size - n := rfl

@[simp]
theorem size_append (a b : Bytes) : (a.append b).size = a.size + b.size := rfl

theorem toList_take (b : Bytes) (n : Nat) : (b.take n).toList = b.toList.take n := by
  apply List.ext_getElem
  · simp
  · intro i h1 h2
    simp [toList, take] at *

theorem toList_drop (b : Bytes) (n : Nat) : (b.drop n).toList = b.toList.drop n := by
  apply List.ext_getElem
  · simp
  · intro i h1 h2
    simp [toList, drop] at *
    try omega

theorem toList_append (a b : Bytes) :
    (a.append b).toList = a.toList ++ b.toList := by
  apply List.ext_getElem
  · simp
  · intro i h1 h2
    simp [toList, append] at *
    rcases Nat.lt_or_ge i a.size with h | h
    · rw [List.getElem_append_left]
      · simp [h]
      · simpa using h
    · rw [List.getElem_append_right]
      · simp [Nat.not_lt_of_ge h, h]
      · simpa using h

theorem byte_eq_of_toList_eq {a b : Bytes} (h : a.toList = b.toList)
    (i : Nat) (hi : i < a.size) : a.byte i = b.byte i := by
  have hs : a.size = b.size := by
    have := congrArg List.length h
    simpa using this
  have hgd : a.toList.getD i 0 = b.toList.getD i 0 := by rw [h]
  rw [getD_toList a i hi, getD_toList b i (hs ▸ hi)] at hgd
  exact hgd

end Bytes
theorem crcRound_lt (c : Nat) (h : c < 2 ^ 32) : crcRound c < 2 ^ 32 := by
  unfold crcRound
  have hs : c >>> 1 < 2 ^ 32 := by
    rw [Nat.shiftRight_eq_div_pow]
    exact Nat.lt_of_le_of_lt (Nat.div_le_self _ _) h
  split
  · exact Nat.xor_lt_two_pow hs (by norm_num)
  · exact hs

theorem crcRound_iterate_lt (n c : Nat) (h : c < 2 ^ 32) :
    crcRound^[n] c < 2 ^ 32 := by
  induction n generalizing c with
  | zero => exact h
  | succ n ih =>
    rw [Function.iterate_succ_apply]
    exact ih _ (crcRound_lt c h)

theorem crcByteStep_lt (c b : Nat) (h : c < 2 ^ 32) : crcByteStep c b < 2 ^ 32 := by
  unfold crcByteStep
  apply crcRound_iterate_lt
  apply Nat.xor_lt_two_pow h
  calc b &&& 0xFF ≤ 0xFF := Nat.and_le_right
    _ < 2 ^ 32 := by norm_num

theorem checksum_castagnoli_lt (b : Bytes) : checksum_castagnoli b < 2 ^ 32 := by
  unfold checksum_castagnoli
  apply Nat.xor_lt_two_pow _ (by norm_num)
  have : ∀ (l : List Nat) (acc : Nat), acc < 2 ^ 32 →
      l.foldl crcByteStep acc < 2 ^ 32 := by
    intro l
    induction l with
    | nil => intro acc h; exact h
    | cons x xs ih => intro acc h; exact ih _ (crcByteStep_lt acc x h)
  exact this _ _ (by norm_num)

/-- For a 32-bit value, `rotate_right(x, 15)` equals the arithmetic form
`x / 2^15 + (x % 2^15) * 2^17`. -/
theorem rotate_right32_arith (x : Nat) (hx : x < 2 ^ 32) :
    rotate_right32 x 15 = x / 2 ^ 15 + x % 2 ^ 15 * 2 ^ 17 := by
  unfold rotate_right32
  have hm : x % 2 ^ 32 = x := Nat.mod_eq_of_lt hx
  have e1 : (15 : Nat) % 32 = 15 := by norm_num
  have e2 : ((32 : Nat) - 15 % 32) % 32 = 17 := by norm_num
  rw [e1, e2, hm, Nat.shiftRight_eq_div_pow, Nat.shiftLeft_eq, Nat.lor_comm]
  have h1 : x / 2 ^ 15 < 2 ^ 17 := by
    apply Nat.div_lt_of_lt_mul
    calc x < 2 ^ 32 := hx
      _ = 2 ^ 15 * 2 ^ 17 := by norm_num
  rw [Nat.mul_comm x (2 ^ 17), ← Nat.mul_add_lt_is_or h1 x]
  have hd : x = 2 ^ 15 * (x / 2 ^ 15) + x % 2 ^ 15 := (Nat.div_add_mod x (2 ^ 15)).symm
  omega

/-- C3: for every byte sequence, `masked_crc` equals the Castagnoli CRC-32
of the sequence rotated right by 15 bits and then added to `0xA282EAD8`
modulo `2^32`; in particular `masked_crc` of
`b"aaaaaaaaaaaabbbbbbbaaaaaa"` equals the documented test-vector constant
`0x9274CDA8`. -/
theorem C3_masked_crc_spec :
    (∀ bytes : Bytes,
      masked_crc bytes =
        (checksum_castagnoli bytes / 2 ^ 15 +
          checksum_castagnoli bytes % 2 ^ 15 * 2 ^ 17 + 0xA282EAD8) % 2 ^ 32) ∧
    masked_crc (Bytes.ofList
      [0x61, 0x61, 0x61, 0x61, 0x61, 0x61, 0x61, 0x61, 0x61, 0x61, 0x61, 0x61,
       0x62, 0x62, 0x62, 0x62, 0x62, 0x62, 0x62,
       0x61, 0x61, 0x61, 0x61, 0x61, 0x61]) = 0x9274CDA8 := by
  constructor
  · intro bytes
    unfold masked_crc mask
    rw [rotate_right32_arith _ (checksum_castagnoli_lt bytes)]
  · decide

theorem Buffer.inv_new (sz : Nat) : (Buffer.new sz).inv := by
  constructor <;> simp [Buffer.new, Buffer.capacity]

theorem BufOp.inv_step (b : Buffer) (op : BufOp) (hb : b.inv) (hp : op.precond b) :
    (op.step b).inv := by
  obtain ⟨h1, h2⟩ := hb
  cases op with
  | new sz => exact Buffer.inv_new sz
  | move_data_to_start =>
    simp only [step, Buffer.move_data_to_start]
    split
    · exact ⟨Nat.zero_le _, by simp [Buffer.buffered, Buffer.capacity] at *; omega⟩
    · exact ⟨h1, h2⟩
  | space_to_fill w =>
    exact ⟨h1, h2⟩
  | set_data d =>
    simp only [step, Buffer.set_data, precond] at *
    split
    · simp [Buffer.inv, Buffer.capacity] at *
      omega
    · exact ⟨h1, h2⟩
  | added n =>
    simp only [step, Buffer.added, precond] at *
    exact ⟨by simp; omega, by simp [Buffer.capacity] at *; omega⟩
  | consume n =>
    simp only [step, Buffer.consume, precond, Buffer.buffered] at *
    exact ⟨by simp; omega, by simp [Buffer.capacity] at *; omega⟩
  | copy_out_and_consume n =>
    simp only [step, Buffer.copy_out_and_consume, precond, Buffer.buffered] at *
    exact ⟨by simp; omega, by simp [Buffer.capacity] at *; omega⟩
  | add_capacity n =>
    simp only [step, Buffer.add_capacity] at *
    exact ⟨h1, by simp [Buffer.capacity] at *; omega⟩

theorem BufOp.inv_runOps (ops : List BufOp) (b : Buffer) (hb : b.inv)
    (hp : BufOp.precondsHold b ops) : (BufOp.runOps b ops).inv := by
  induction ops generalizing b with
  | nil => exact hb
  | cons op ops ih =>
    obtain ⟨hp1, hp2⟩ := hp
    exact ih _ (BufOp.inv_step b op hb hp1) hp2

/-- C8: for every sequence of Buffer operations in which each call's
stated precondition holds, the invariant `0 ≤ begin ≤ end ≤ capacity`
holds after every call (stated for all sequences from a fresh buffer, so
in particular after every prefix). -/
theorem C8_buffer_invariant (sz : Nat) (ops : List BufOp)
    (hp : BufOp.precondsHold (Buffer.new sz) ops) :
    (BufOp.runOps (Buffer.new sz) ops).inv :=
  BufOp.inv_runOps ops (Buffer.new sz) (Buffer.inv_new sz) hp

/-- Witness for C8: a concrete operation sequence exercising every
operation, with all preconditions discharged. -/
theorem C8_buffer_invariant_witness :
    BufOp.precondsHold (Buffer.new 4)
      [BufOp.space_to_fill (Bytes.ofList [7, 8]), BufOp.added 2,
       BufOp.consume 1, BufOp.move_data_to_start,
       BufOp.set_data (Bytes.ofList [1, 2, 3]), BufOp.add_capacity 2,
       BufOp.copy_out_and_consume 2, BufOp.new 1] ∧
    (BufOp.runOps (Buffer.new 4)
      [BufOp.space_to_fill (Bytes.ofList [7, 8]), BufOp.added 2,
       BufOp.consume 1, BufOp.move_data_to_start,
       BufOp.set_data (Bytes.ofList [1, 2, 3]), BufOp.add_capacity 2,
       BufOp.copy_out_and_consume 2, BufOp.new 1]).inv := by
  have hp : BufOp.precondsHold (Buffer.new 4)
      [BufOp.space_to_fill (Bytes.ofList [7, 8]), BufOp.added 2,
       BufOp.consume 1, BufOp.move_data_to_start,
       BufOp.set_data (Bytes.ofList [1, 2, 3]), BufOp.add_capacity 2,
       BufOp.copy_out_and_consume 2, BufOp.new 1] := by
    simp [BufOp.precondsHold, BufOp.precond, BufOp.step, Buffer.new, Buffer.added,
          Buffer.capacity, Buffer.buffered, Buffer.consume, Buffer.move_data_to_start,
          Buffer.set_data, Buffer.add_capacity, Buffer.write_space, Bytes.ofList,
          Buffer.copy_out_and_consume]
  exact ⟨hp, C8_buffer_invariant 4 _ hp⟩

theorem Bytes.eq_of_fields {a b : Bytes} (h1 : a.size = b.size)
    (h2 : ∀ i, a.byte i = b.byte i) : a = b := by
  cases a; cases b
  simp only [Bytes.mk.injEq]
  exact ⟨h1, funext h2⟩

/-- `uncompressBad` really is a left inverse of `compressBad`. -/
theorem uncompressBad_leftInverse (b : Bytes) :
    uncompressBad (compressBad b) = Except.ok b := by
  have hdrop : (compressBad b).drop (2 ^ 24 - 4) = b := by
    apply Bytes.eq_of_fields
    · simp [compressBad, Bytes.drop]
    · intro i
      have h1 : ¬ (2 ^ 24 - 4 + i < 2 ^ 24 - 4) := by omega
      have h2 : 2 ^ 24 - 4 + i - (2 ^ 24 - 4) = i := by omega
      simp [compressBad, Bytes.drop, h1, h2]
  rw [uncompressBad, hdrop]

/-- C4 counterexample: the claim says that whenever zero bytes are
buffered, `ensure_buffered` reports clean end-of-stream (`Ok(None)`).
With a requested count of 0 on an empty buffer and an exhausted source,
zero bytes are buffered before and after the call, yet the code skips the
fill-and-decide branch entirely and returns `Ok(Some(&[]))`. -/
theorem C4_counterexample :
    (Buffer.new 1024).buffered = 0 ∧
    (ensure_buffered (Buffer.new 1024) 0 []).2.1.buffered = 0 ∧
    resShapeOpt (ensure_buffered (Buffer.new 1024) 0 []).1 = .ok (some ()) := by
  refine ⟨rfl, rfl, rfl⟩

/-- C5 counterexample: a 4-byte header `[0x01, 5, 0, 0]` promises a
5-byte body, and the source then ends cleanly with no further bytes.  The
claim says `next_chunk` surfaces an error to the caller; the code instead
panics (`.expect("Snappy chunk header with missing data")`), which is not
an error result. -/
theorem C5_counterexample :
    resShapeOpt (next_chunk (Buffer.new (1024 * 1024))
      [Bytes.ofList [0x01, 5, 0, 0]]).1 = .panicked .missingChunkData := by
  decide

/-- C6 counterexample: a well-formed compressed (type `0x00`) chunk whose
payload the external decompressor rejects.  The claim says `read` reports
a decompression-failure error result to the caller; the code instead
panics (`.expect("Snappy decompression failure")`) — the outcome is
`panicked`, not `ioError`. -/
theorem C6_counterexample :
    decode (fun _ => .error ()) CrcMode.Ignore
      (Bytes.ofList [0x00, 0x05, 0x00, 0x00, 0, 0, 0, 0, 9]) =
    .panicked .decompressionFailure := by
  decide

/-- C7 counterexample: a well-formed uncompressed (type `0x01`) data
chunk with a 65537-byte payload (one more than
`MAX_UNCOMPRESSED_CHUNK`).  The claim says the decoder tolerates it and
produces its payload; the code instead panics: `set_data`'s
`assert!(data.len() <= self.buffer.len())` fails on the fixed
65536-byte output buffer. -/
theorem C7_counterexample :
    decode (fun _ => .error ()) CrcMode.Ignore oversizedChunkStream =
    .panicked .setDataAssert := by
  decide

/-- C1 counterexample: a compressor/decompressor pair satisfying the
claim's hypothesis (`uncompressBad` is a left inverse of `compressBad`)
for which decode-of-encode fails: `compressBad` emits `2^24 - 3` bytes
for the one-byte input, the 24-bit length field of the emitted header
wraps to 1, and the decoder reads a 1-byte chunk body and fails with the
CRC-truncated error instead of recovering the input. -/
theorem C1_counterexample :
    (∀ b : Bytes, uncompressBad (compressBad b) = Except.ok b) ∧
    byte42.toList = [42] ∧
    decode uncompressBad CrcMode.Verify (encode compressBad byte42) =
      .ioError .crcTruncated := by
  refine ⟨uncompressBad_leftInverse, by decide, by decide⟩

/-- C2 counterexample: with `compressBad`, the compressed length of the
single block of `byte42` is `2^24 - 3`, so `4 +` the compressed length is
`2^24 + 1`, which does not fit the 24-bit little-endian length field: the
emitted field holds `1`.  The claim's statement that the field equals
`4 + compressed length` is false for this input. -/
theorem C2_counterexample :
    ((SnappyFramedEncoder.write compressBad byte42).1.byte 1 +
     (SnappyFramedEncoder.write compressBad byte42).1.byte 2 * 256 +
     (SnappyFramedEncoder.write compressBad byte42).1.byte 3 * 65536) ≠
    4 + (compressBad (byte42.take MAX_UNCOMPRESSED_CHUNK)).size := by
  decide

/-- C6 as amended: whenever the external decompressor rejects the payload
of a compressed (type `0x00`) chunk, the decoder's `read` panics with the
`"Snappy decompression failure"` expect-panic — it aborts rather than
returning an error result to the caller. -/
theorem C6_amended_decompression_panics
    (uncompress : Bytes → Except Unit Bytes) (fuel k : Nat)
    (st : SnappyFramedDecoder)
    (hempty : st.output.empty = true)
    (hshape : resShapeOpt (next_chunk st.input st.source).1 = .ok (some ()))
    (hty : chunkTypeOf (next_chunk st.input st.source).1 = 0x00)
    (hsize : CRC_SIZE ≤ chunkBodySize (next_chunk st.input st.source).1)
    (hfail : uncompress ((chunkBody (next_chunk st.input st.source).1).drop CRC_SIZE) =
             .error ()) :
    (SnappyFramedDecoder.read uncompress (fuel + 1) st k).1 =
      .panicked .decompressionFailure := by
  rcases hnc : next_chunk st.input st.source with ⟨r1, input1, src1⟩
  rw [hnc] at hshape hty hsize hfail
  match r1, hshape with
  | .ok (some ch), _ =>
    simp only [chunkTypeOf] at hty
    simp only [chunkBodySize] at hsize
    simp only [chunkBody] at hfail
    have hnotlt : ¬ (ch.data.size < CRC_SIZE) := by omega
    simp [SnappyFramedDecoder.read, hempty, chunkLoop, hnc, hty,
          Chunk.crc, hnotlt, hfail]

/-- C7 as amended: the decoder does not tolerate a data chunk whose
uncompressed payload exceeds `MAX_UNCOMPRESSED_CHUNK` (65536): whether
the chunk is uncompressed (type `0x01`, first conjunct) or compressed
(type `0x00` with an oversized decompression result, second conjunct),
`Buffer::set_data`'s `assert!(data.len() <= self.buffer.len())` fails on
the decoder's fixed 65536-byte output buffer and `read` panics instead of
producing the payload.  (The 65536-byte bound is enforced by the encoder
when splitting input; on read it is not checked, but the fixed output
buffer makes larger payloads fatal.)  Stated for `Ignore` mode, in which
no CRC comparison can intervene. -/
theorem C7_amended_oversized_payload_panics :
    (∀ (uncompress : Bytes → Except Unit Bytes) (fuel k : Nat)
       (st : SnappyFramedDecoder),
       st.output.empty = true →
       st.output.buffer.size = MAX_UNCOMPRESSED_CHUNK →
       st.mode = CrcMode.Ignore →
       resShapeOpt (next_chunk st.input st.source).1 = .ok (some ()) →
       chunkTypeOf (next_chunk st.input st.source).1 = 0x01 →
       MAX_UNCOMPRESSED_CHUNK + CRC_SIZE < chunkBodySize (next_chunk st.input st.source).1 →
       (SnappyFramedDecoder.read uncompress (fuel + 1) st k).1 =
         .panicked .setDataAssert) ∧
    (∀ (uncompress : Bytes → Except Unit Bytes) (fuel k : Nat)
       (st : SnappyFramedDecoder) (d : Bytes),
       st.output.empty = true →
       st.output.buffer.size = MAX_UNCOMPRESSED_CHUNK →
       st.mode = CrcMode.Ignore →
       resShapeOpt (next_chunk st.input st.source).1 = .ok (some ()) →
       chunkTypeOf (next_chunk st.input st.source).1 = 0x00 →
       CRC_SIZE ≤ chunkBodySize (next_chunk st.input st.source).1 →
       uncompress ((chunkBody (next_chunk st.input st.source).1).drop CRC_SIZE) = .ok d →
       MAX_UNCOMPRESSED_CHUNK < d.size →
       (SnappyFramedDecoder.read uncompress (fuel + 1) st k).1 =
         .panicked .setDataAssert) := by
  constructor
  · intro uncompress fuel k st hempty hcap hmode hshape hty hsize
    rcases hnc : next_chunk st.input st.source with ⟨r1, input1, src1⟩
    rw [hnc] at hshape hty hsize
    match r1, hshape with
    | .ok (some ch), _ =>
      simp only [chunkTypeOf] at hty
      simp only [chunkBodySize] at hsize
      have hnotlt : ¬ (ch.data.size < CRC_SIZE) := by
        simp only [CRC_SIZE, MAX_UNCOMPRESSED_CHUNK] at *; omega
      have hne : ¬ (ch.chunk_type = 0x00) := by omega
      have hnofit : ¬ (ch.data.size ≤ st.output.buffer.size + CRC_SIZE) := by
        simp only [hcap, CRC_SIZE, MAX_UNCOMPRESSED_CHUNK] at *
        omega
      simp [SnappyFramedDecoder.read, hempty, chunkLoop, hnc, hty,
            hne, Chunk.crc, hnotlt, hmode, Buffer.set_data, hnofit]
  · intro uncompress fuel k st d hempty hcap hmode hshape hty hsize hok hbig
    rcases hnc : next_chunk st.input st.source with ⟨r1, input1, src1⟩
    rw [hnc] at hshape hty hsize hok
    match r1, hshape with
    | .ok (some ch), _ =>
      simp only [chunkTypeOf] at hty
      simp only [chunkBodySize] at hsize
      simp only [chunkBody] at hok
      have hnotlt : ¬ (ch.data.size < CRC_SIZE) := by omega
      have hnofit : ¬ (d.size ≤ st.output.buffer.size) := by
        simp only [hcap, MAX_UNCOMPRESSED_CHUNK] at *; omega
      simp [SnappyFramedDecoder.read, hempty, chunkLoop, hnc, hty,
            Chunk.crc, hnotlt, hmode, hok, Buffer.set_data, hnofit]

/-- Witness for the amended C6: the concrete compressed chunk of
`smallCompressedStream` with an always-rejecting decompressor. -/
theorem C6_amended_witness :
    (SnappyFramedDecoder.read (fun _ => .error ()) 1
      (SnappyFramedDecoder.new [smallCompressedStream] CrcMode.Ignore) 65536).1 =
    .panicked .decompressionFailure :=
  C6_amended_decompression_panics (fun _ => .error ()) 0 65536
    (SnappyFramedDecoder.new [smallCompressedStream] CrcMode.Ignore)
    (by decide) (by decide) (by decide) (by decide) rfl

/-- Witness for the amended C7: the 65537-byte uncompressed chunk of
`oversizedChunkStream`, and the compressed chunk of
`smallCompressedStream` with a decompressor producing 65537 bytes. -/
theorem C7_amended_witness :
    (SnappyFramedDecoder.read (fun _ => .error ()) 1
      (SnappyFramedDecoder.new [oversizedChunkStream] CrcMode.Ignore) 65536).1 =
      .panicked .setDataAssert ∧
    (SnappyFramedDecoder.read (fun _ => .ok bigPayload) 1
      (SnappyFramedDecoder.new [smallCompressedStream] CrcMode.Ignore) 65536).1 =
      .panicked .setDataAssert :=
  ⟨C7_amended_oversized_payload_panics.1 (fun _ => .error ()) 0 65536
    (SnappyFramedDecoder.new [oversizedChunkStream] CrcMode.Ignore)
    (by decide) (by decide) rfl (by decide) (by decide) (by decide),
   C7_amended_oversized_payload_panics.2 (fun _ => .ok bigPayload) 0 65536
    (SnappyFramedDecoder.new [smallCompressedStream] CrcMode.Ignore) bigPayload
    (by decide) (by decide) rfl (by decide) (by decide) (by decide) rfl (by decide)⟩

/-! ## Buffer content lemmas -/

@[simp]
theorem Buffer.length_unread (b : Buffer) : b.unread.length = b.buffered := by
  simp [Buffer.unread]

theorem Buffer.unread_new (sz : Nat) : (Buffer.new sz).unread = [] := by
  simp [Buffer.unread, Buffer.new, Buffer.buffered]

theorem Buffer.getElem_unread (b : Buffer) (i : Nat) (h : i < b.unread.length) :
    b.unread[i] = b.buffer.byte (b.begin + i) := by
  simp [Buffer.unread]

theorem Buffer.unread_move (b : Buffer) : b.move_data_to_start.unread = b.unread := by
  by_cases h : 0 < b.begin
  · simp only [Buffer.move_data_to_start, if_pos h]
    simp only [Buffer.unread, Buffer.buffered, Nat.sub_zero]
    apply List.map_congr_left
    intro a ha
    rw [List.mem_range] at ha
    simp only [Nat.zero_add]
    rw [if_pos ha]
  · simp [Buffer.move_data_to_start, h]

theorem Buffer.move_fields (b : Buffer) :
    b.move_data_to_start.begin = 0 ∧
    b.move_data_to_start.end_ = b.buffered ∧
    b.move_data_to_start.buffer.size = b.buffer.size := by
  unfold Buffer.move_data_to_start
  split
  · exact ⟨rfl, rfl, rfl⟩
  · refine ⟨by omega, ?_, rfl⟩
    simp [Buffer.buffered]
    omega

theorem Buffer.unread_add_capacity (b : Buffer) (n : Nat) (hinv : b.inv) :
    (b.add_capacity n).unread = b.unread := by
  obtain ⟨h1, h2⟩ := hinv
  simp only [Buffer.unread, Buffer.add_capacity, Buffer.buffered]
  apply List.map_congr_left
  intro a ha
  rw [List.mem_range] at ha
  have : b.begin + a < b.buffer.size := by
    simp only [Buffer.capacity] at h2
    omega
  rw [if_pos this]

theorem Buffer.consume_fst (b : Buffer) (n : Nat) (h : n ≤ b.buffered) :
    (b.consume n).1.toList = b.unread.take n := by
  simp only [Buffer.consume, Bytes.toList, Buffer.unread]
  rw [← List.map_take, List.take_range, Nat.min_eq_left h]

theorem Buffer.consume_snd_unread (b : Buffer) (n : Nat) (h : n ≤ b.buffered) :
    (b.consume n).2.unread = b.unread.drop n := by
  apply List.ext_getElem
  · simp only [Buffer.length_unread, List.length_drop]
    simp only [Buffer.consume, Buffer.buffered] at *
    omega
  · intro i h1 h2
    rw [List.getElem_drop]
    rw [Buffer.getElem_unread, Buffer.getElem_unread]
    show b.buffer.byte (b.begin + n + i) = b.buffer.byte (b.begin + (n + i))
    congr 1
    omega

theorem Buffer.consume_snd_fields (b : Buffer) (n : Nat) :
    (b.consume n).2.begin = b.begin + n ∧
    (b.consume n).2.end_ = b.end_ ∧
    (b.consume n).2.buffer = b.buffer := ⟨rfl, rfl, rfl⟩

theorem Buffer.unread_write_added (b : Buffer) (c : Bytes) (hinv : b.inv)
    (hfit : b.end_ + c.size ≤ b.buffer.size) :
    ((b.write_space c).added c.size).unread = b.unread ++ c.toList := by
  obtain ⟨h1, h2⟩ := hinv
  apply List.ext_getElem
  · simp only [Buffer.length_unread, List.length_append, Bytes.length_toList,
               Buffer.write_space, Buffer.added, Buffer.buffered]
    omega
  · intro i hh1 hh2
    rw [Buffer.getElem_unread]
    show (if b.end_ ≤ b.begin + i ∧ b.begin + i < b.end_ + c.size
          then c.byte (b.begin + i - b.end_) else b.buffer.byte (b.begin + i)) = _
    have hi : i < (b.end_ + c.size - b.begin) := by
      simpa [Buffer.write_space, Buffer.added, Buffer.buffered] using hh1
    rcases Nat.lt_or_ge i b.buffered with hlt | hge
    · rw [List.getElem_append_left (by simpa using hlt)]
      have hc : ¬ (b.end_ ≤ b.begin + i ∧ b.begin + i < b.end_ + c.size) := by
        simp only [Buffer.buffered] at hlt
        omega
      rw [if_neg hc, Buffer.getElem_unread]
    · rw [List.getElem_append_right (by simpa using hge)]
      have hc : b.end_ ≤ b.begin + i ∧ b.begin + i < b.end_ + c.size := by
        simp only [Buffer.buffered] at hge
        omega
      rw [if_pos hc]
      simp only [Bytes.toList, List.getElem_map, List.getElem_range, Buffer.length_unread]
      congr 1
      simp only [Buffer.buffered] at hge ⊢
      omega

theorem goodSrc_nil : goodSrc [] := by intro x hx; cases hx

/-- The net effect of the fill loop: with sufficient fuel, the buffer
gains exactly `min space_to_fill (flatSrc src).length` bytes from the
front of the source, appended to the unread region. -/
theorem fillLoop_spec (fuel : Nat) (b : Buffer) (src : Src)
    (hfuel : b.space_to_fill < fuel) (hinv : b.inv) (hsrc : goodSrc src) :
    (fillLoop fuel b src).1.unread =
        b.unread ++ (flatSrc src).take (min b.space_to_fill (flatSrc src).length) ∧
    flatSrc (fillLoop fuel b src).2 =
        (flatSrc src).drop (min b.space_to_fill (flatSrc src).length) ∧
    (fillLoop fuel b src).1.begin = b.begin ∧
    (fillLoop fuel b src).1.buffer.size = b.buffer.size ∧
    (fillLoop fuel b src).1.end_ =
        b.end_ + min b.space_to_fill (flatSrc src).length ∧
    (fillLoop fuel b src).1.inv ∧
    goodSrc (fillLoop fuel b src).2 := by
  induction fuel generalizing b src with
  | zero => omega
  | succ fuel ih =>
    simp only [fillLoop]
    by_cases hsp : b.space_to_fill = 0
    · simp [hsp, hinv, hsrc]
    · rw [if_neg hsp]
      obtain ⟨hi1, hi2⟩ := hinv
      have hi2' : b.end_ ≤ b.buffer.size := hi2
      cases src with
      | nil =>
        simp only [readSource]
        have hz : (Bytes.empty).size = 0 := rfl
        rw [if_pos hz]
        have hu := Buffer.unread_write_added b Bytes.empty ⟨hi1, hi2⟩ (by simp [Bytes.empty]; omega)
        refine ⟨?_, ?_, rfl, rfl, ?_, ?_, goodSrc_nil⟩
        · simp [hu, flatSrc]
        · simp [flatSrc]
        · simp [Buffer.write_space, Buffer.added, Bytes.empty, flatSrc]
        · constructor
          · simpa [Buffer.write_space, Buffer.added, Bytes.empty] using hi1
          · simpa [Buffer.write_space, Buffer.added, Buffer.capacity, Bytes.empty] using hi2
      | cons blk rest =>
        have hblk : 0 < blk.size := hsrc blk (by simp)
        have hrest : goodSrc rest := by
          intro x hx; exact hsrc x (by simp [hx])
        simp only [readSource]
        by_cases hfit : blk.size ≤ b.space_to_fill
        · rw [if_pos hfit]
          have hne : ¬ (blk.size = 0) := by omega
          simp only [hne, if_false, ite_false]
          set b' := (b.write_space blk).added blk.size with hb'
          have hbfields : b'.begin = b.begin ∧ b'.end_ = b.end_ + blk.size ∧
              b'.buffer.size = b.buffer.size := ⟨rfl, rfl, rfl⟩
          have hsfit : b.end_ + blk.size ≤ b.buffer.size := by
            simp [Buffer.space_to_fill] at hfit
            omega
          have hinv' : b'.inv := by
            refine ⟨?_, ?_⟩
            · simp [hb', Buffer.write_space, Buffer.added]; omega
            · simp [hb', Buffer.write_space, Buffer.added, Buffer.capacity]; omega
          have hsp' : b'.space_to_fill = b.space_to_fill - blk.size := by
            simp [Buffer.space_to_fill, hb', Buffer.write_space, Buffer.added]
            omega
          have hfuel' : b'.space_to_fill < fuel := by
            simp [Buffer.space_to_fill] at hsp hfuel ⊢
            omega
          have hu' : b'.unread = b.unread ++ blk.toList :=
            Buffer.unread_write_added b blk ⟨hi1, hi2⟩ hsfit
          obtain ⟨j1, j2, j3, j4, j5, j6, j7⟩ := ih b' rest hfuel' hinv' hrest
          have hflat : flatSrc (blk :: rest) = blk.toList ++ flatSrc rest := by
            simp [flatSrc]
          have hK : min b.space_to_fill (flatSrc (blk :: rest)).length =
              blk.size + min b'.space_to_fill (flatSrc rest).length := by
            rw [hflat, hsp']
            simp only [List.length_append, Bytes.length_toList]
            omega
          refine ⟨?_, ?_, ?_, ?_, ?_, j6, j7⟩
          · rw [j1, hu', hK, hflat, List.append_assoc]
            congr 2
            rw [List.take_append_eq_append_take]
            simp only [Bytes.length_toList]
            have h1' : blk.size + min b'.space_to_fill (flatSrc rest).length - blk.size =
                min b'.space_to_fill (flatSrc rest).length := by omega
            rw [h1']
            congr 1
            refine (List.take_of_length_le ?_).symm
            simp only [Bytes.length_toList]
            omega
          · rw [j2, hK, hflat, List.drop_append_eq_append_drop]
            simp only [Bytes.length_toList]
            have h1' : blk.size + min b'.space_to_fill (flatSrc rest).length - blk.size =
                min b'.space_to_fill (flatSrc rest).length := by omega
            rw [h1']
            have h2' : List.drop (blk.size + min b'.space_to_fill (flatSrc rest).length)
                blk.toList = [] := by
              apply List.drop_eq_nil_of_le
              simp only [Bytes.length_toList]
              omega
            rw [h2', List.nil_append]
          · rw [j3, hbfields.1]
          · rw [j4, hbfields.2.2]
          · rw [j5, hbfields.2.1, hK]
            omega
        · rw [if_neg hfit]
          have hchunksz : (blk.take b.space_to_fill).size = b.space_to_fill := by
            simp
            omega
          have hne : ¬ ((blk.take b.space_to_fill).size = 0) := by
            rw [hchunksz]; omega
          simp only [hne, if_false, ite_false]
          set c := blk.take b.space_to_fill with hc
          set b' := (b.write_space c).added c.size with hb'
          have hsfit : b.end_ + c.size ≤ b.buffer.size := by
            rw [hchunksz]
            simp [Buffer.space_to_fill]
            omega
          have hinv' : b'.inv := by
            refine ⟨?_, ?_⟩
            · simp [hb', Buffer.write_space, Buffer.added]; omega
            · simp [hb', Buffer.write_space, Buffer.added, Buffer.capacity]
              omega
          have hsp' : b'.space_to_fill = 0 := by
            simp [Buffer.space_to_fill, hb', Buffer.write_space, Buffer.added, hchunksz]
            simp [Buffer.space_to_fill] at *
            omega
          have hfuel' : b'.space_to_fill < fuel := by
            rw [hsp']
            simp [Buffer.space_to_fill] at hsp hfuel
            omega
          have hrest' : goodSrc (blk.drop b.space_to_fill :: rest) := by
            intro x hx
            rcases hx with _ | hx
            · simp
              simp [Buffer.space_to_fill] at hfit
              omega
            · exact hrest x (by assumption)
          have hu' : b'.unread = b.unread ++ c.toList :=
            Buffer.unread_write_added b c ⟨hi1, hi2⟩ hsfit
          obtain ⟨j1, j2, j3, j4, j5, j6, j7⟩ :=
            ih b' (blk.drop b.space_to_fill :: rest) hfuel' hinv' hrest'
          rw [hsp'] at j1 j2 j5
          simp only [Nat.zero_min, List.take_zero, List.drop_zero, List.append_nil,
                     Nat.add_zero] at j1 j2 j5
          have hflat : flatSrc (blk :: rest) = blk.toList ++ flatSrc rest := by
            simp [flatSrc]
          have hK : min b.space_to_fill (flatSrc (blk :: rest)).length =
              b.space_to_fill := by
            rw [hflat]
            simp only [List.length_append, Bytes.length_toList]
            simp [Buffer.space_to_fill] at hfit ⊢
            omega
          refine ⟨?_, ?_, ?_, ?_, ?_, j6, j7⟩
          · rw [j1, hu', hK, hflat, hc, Bytes.toList_take]
            congr 1
            rw [List.take_append_of_le_length]
            simp
            simp [Buffer.space_to_fill] at hfit
            omega
          · rw [j2, hK, hflat]
            have : flatSrc (blk.drop b.space_to_fill :: rest) =
                (blk.drop b.space_to_fill).toList ++ flatSrc rest := by
              simp [flatSrc]
            rw [this, Bytes.toList_drop]
            rw [List.drop_append_of_le_length]
            simp
            simp [Buffer.space_to_fill] at hfit
            omega
          · rw [j3]; rfl
          · rw [j4]; rfl
          · rw [j5, hK]
            show b.end_ + c.size = b.end_ + b.space_to_fill
            rw [hchunksz]
  -- end

theorem Buffer.buffered_le_size (b : Buffer) (hinv : b.inv) :
    b.buffered ≤ b.buffer.size := by
  obtain ⟨h1, h2⟩ := hinv
  simp only [Buffer.capacity] at h2
  simp only [Buffer.buffered]
  omega

/-- The growth step at the head of `ensure_buffered`: afterwards the
buffer can hold `n` bytes, with unchanged content and cursors. -/
theorem ensure_grow_spec (b : Buffer) (n : Nat) (hinv : b.inv) :
    (if n > b.capacity then b.add_capacity (n - b.capacity) else b).unread = b.unread ∧
    (if n > b.capacity then b.add_capacity (n - b.capacity) else b).inv ∧
    n ≤ (if n > b.capacity then b.add_capacity (n - b.capacity) else b).buffer.size ∧
    (if n > b.capacity then b.add_capacity (n - b.capacity) else b).buffered = b.buffered := by
  obtain ⟨h1, h2⟩ := hinv
  by_cases h : n > b.capacity
  · rw [if_pos h]
    refine ⟨Buffer.unread_add_capacity b _ ⟨h1, h2⟩, ⟨h1, ?_⟩, ?_, rfl⟩
    · simp only [Buffer.add_capacity, Buffer.capacity] at *
      omega
    · simp only [Buffer.add_capacity, Buffer.capacity] at *
      omega
  · rw [if_neg h]
    refine ⟨rfl, ⟨h1, h2⟩, ?_, rfl⟩
    simp only [Buffer.capacity] at *
    omega

/-- `ensure_buffered` when at least `n` bytes are reachable: it succeeds
with exactly the first `n` reachable bytes and leaves the rest. -/
theorem ensure_spec_enough (b : Buffer) (n : Nat) (src : Src)
    (hinv : b.inv) (hsrc : goodSrc src) (hn : n ≤ (availOf b src).length) :
    ∃ data b' src',
      ensure_buffered b n src = (.ok (some data), b', src') ∧
      data.size = n ∧
      data.toList = (availOf b src).take n ∧
      availOf b' src' = (availOf b src).drop n ∧
      b'.inv ∧ goodSrc src' := by
  obtain ⟨hi1, hi2⟩ := hinv
  by_cases hb : b.buffered < n
  · -- fill path
    obtain ⟨hg1, hg2, hg3, hg4⟩ := ensure_grow_spec b n ⟨hi1, hi2⟩
    set b1 := if n > b.capacity then b.add_capacity (n - b.capacity) else b with hb1
    set b2 := b1.move_data_to_start with hb2
    obtain ⟨hm1, hm2, hm3⟩ := Buffer.move_fields b1
    rw [← hb2] at hm1 hm2 hm3
    have hu2 : b2.unread = b.unread := by rw [hb2, Buffer.unread_move, hg1]
    have hbuf2 : b2.buffered = b.buffered := by
      rw [Buffer.buffered, hm1, hm2, Nat.sub_zero, hg4]
    have hinv2 : b2.inv := by
      constructor
      · rw [hm1]; omega
      · have hble := Buffer.buffered_le_size b1 hg2
        show b2.end_ ≤ b2.capacity
        rw [hm2, Buffer.capacity, hm3]
        exact hble
    obtain ⟨f1, f2, f3, f4, f5, f6, f7⟩ :=
      fillLoop_spec (b2.space_to_fill + 1) b2 src (by omega) hinv2 hsrc
    set K := min b2.space_to_fill (flatSrc src).length with hK
    set b3 := (fillLoop (b2.space_to_fill + 1) b2 src).1 with hb3
    set src' := (fillLoop (b2.space_to_fill + 1) b2 src).2 with hsrc'
    have hpair : fillLoop (b2.space_to_fill + 1) b2 src = (b3, src') := rfl
    have hlen : (availOf b src).length = b.buffered + (flatSrc src).length := by
      simp [availOf]
    have hsp2 : b2.space_to_fill = b1.buffer.size - b.buffered := by
      rw [Buffer.space_to_fill, hm3, hm2, hg4]
    have hKge : n - b.buffered ≤ K := by
      rw [hK, hsp2]
      omega
    have hbuf3 : b3.buffered = b.buffered + K := by
      rw [Buffer.buffered, f5, f3, hm1, hm2, hg4]
      omega
    have hb3n : ¬ (b3.buffered = 0) := by omega
    have hb3n2 : ¬ (b3.buffered < n) := by omega
    have hcons : n ≤ b3.buffered := by omega
    refine ⟨(b3.consume n).1, (b3.consume n).2, src', ?_, rfl, ?_, ?_, ?_, f7⟩
    · show ensure_buffered b n src = _
      rw [ensure_buffered]
      rw [if_pos hb]
      simp only [← hb1, ← hb2, hpair]
      rw [if_neg hb3n, if_neg hb3n2]
    · rw [Buffer.consume_fst b3 n hcons, f1, hu2]
      show (b.unread ++ (flatSrc src).take K).take n = (availOf b src).take n
      rw [availOf, List.take_append_eq_append_take, List.take_append_eq_append_take,
          List.take_take]
      congr 1
      have : min (n - b.unread.length) K = n - b.unread.length := by
        simp only [Buffer.length_unread]
        omega
      rw [this]
    · show (b3.consume n).2.unread ++ flatSrc src' = (availOf b src).drop n
      rw [Buffer.consume_snd_unread b3 n hcons, f1, hu2, f2]
      have hsplit : availOf b src =
          (b.unread ++ (flatSrc src).take K) ++ (flatSrc src).drop K := by
        rw [availOf, List.append_assoc, List.take_append_drop]
      have hnle : n ≤ (b.unread ++ (flatSrc src).take K).length := by
        simp only [List.length_append, Buffer.length_unread, List.length_take]
        omega
      rw [hsplit, List.drop_append_of_le_length hnle]
    · constructor
      · simp only [Buffer.consume]
        simp only [Buffer.buffered] at hcons
        omega
      · simp only [Buffer.consume, Buffer.capacity]
        exact f6.2
  · -- enough already buffered
    have hble : n ≤ b.buffered := by omega
    refine ⟨(b.consume n).1, (b.consume n).2, src, ?_, rfl, ?_, ?_, ?_, hsrc⟩
    · rw [ensure_buffered, if_neg hb]
    · rw [Buffer.consume_fst b n hble, availOf, List.take_append_of_le_length]
      simp only [Buffer.length_unread]
      omega
    · show (b.consume n).2.unread ++ flatSrc src = _
      rw [Buffer.consume_snd_unread b n hble, availOf, List.drop_append_of_le_length]
      simp only [Buffer.length_unread]
      omega
    · constructor
      · simp only [Buffer.consume]
        simp only [Buffer.buffered] at hble
        omega
      · simp only [Buffer.consume, Buffer.capacity]
        exact hi2

/-- `ensure_buffered` when nothing at all is reachable and `n > 0`:
clean end of stream. -/
theorem ensure_spec_eof (b : Buffer) (n : Nat) (src : Src)
    (hinv : b.inv) (hsrc : goodSrc src) (h0 : availOf b src = []) (hn : 0 < n) :
    ∃ b' src',
      ensure_buffered b n src = (.ok none, b', src') ∧
      availOf b' src' = [] ∧ b'.inv ∧ goodSrc src' := by
  obtain ⟨hi1, hi2⟩ := hinv
  have hu0 : b.unread = [] := (List.append_eq_nil.mp h0).1
  have hf0 : flatSrc src = [] := (List.append_eq_nil.mp h0).2
  have hbuf : b.buffered = 0 := by
    have := congrArg List.length hu0
    simpa using this
  have hb : b.buffered < n := by omega
  obtain ⟨hg1, hg2, hg3, hg4⟩ := ensure_grow_spec b n ⟨hi1, hi2⟩
  set b1 := if n > b.capacity then b.add_capacity (n - b.capacity) else b with hb1
  set b2 := b1.move_data_to_start with hb2
  obtain ⟨hm1, hm2, hm3⟩ := Buffer.move_fields b1
  rw [← hb2] at hm1 hm2 hm3
  have hu2 : b2.unread = b.unread := by rw [hb2, Buffer.unread_move, hg1]
  have hinv2 : b2.inv := by
    constructor
    · rw [hm1]; omega
    · have hble := Buffer.buffered_le_size b1 hg2
      show b2.end_ ≤ b2.capacity
      rw [hm2, Buffer.capacity, hm3]
      exact hble
  obtain ⟨f1, f2, f3, f4, f5, f6, f7⟩ :=
    fillLoop_spec (b2.space_to_fill + 1) b2 src (by omega) hinv2 hsrc
  set b3 := (fillLoop (b2.space_to_fill + 1) b2 src).1 with hb3
  set src' := (fillLoop (b2.space_to_fill + 1) b2 src).2 with hsrc'
  have hpair : fillLoop (b2.space_to_fill + 1) b2 src = (b3, src') := rfl
  have hbuf3 : b3.buffered = 0 := by
    have hl : b3.unread.length = 0 := by
      rw [f1, hu2, hu0, hf0]
      simp
    simpa using hl
  refine ⟨b3, src', ?_, ?_, f6, f7⟩
  · rw [ensure_buffered, if_pos hb]
    simp only [← hb1, ← hb2, hpair]
    rw [if_pos hbuf3]
  · rw [availOf, f1, f2, hu2, hu0, hf0]
    simp

/-- `ensure_buffered` when some bytes, but fewer than `n`, are reachable:
the truncated-chunk error, with all reachable bytes left intact. -/
theorem ensure_spec_short (b : Buffer) (n : Nat) (src : Src)
    (hinv : b.inv) (hsrc : goodSrc src)
    (h1 : 0 < (availOf b src).length) (h2 : (availOf b src).length < n) :
    ∃ b' src',
      ensure_buffered b n src = (.ioError .incompleteChunk, b', src') ∧
      availOf b' src' = availOf b src ∧ b'.inv ∧ goodSrc src' := by
  obtain ⟨hi1, hi2⟩ := hinv
  have hlen : (availOf b src).length = b.buffered + (flatSrc src).length := by
    simp [availOf]
  have hb : b.buffered < n := by omega
  obtain ⟨hg1, hg2, hg3, hg4⟩ := ensure_grow_spec b n ⟨hi1, hi2⟩
  set b1 := if n > b.capacity then b.add_capacity (n - b.capacity) else b with hb1
  set b2 := b1.move_data_to_start with hb2
  obtain ⟨hm1, hm2, hm3⟩ := Buffer.move_fields b1
  rw [← hb2] at hm1 hm2 hm3
  have hu2 : b2.unread = b.unread := by rw [hb2, Buffer.unread_move, hg1]
  have hbuf2 : b2.buffered = b.buffered := by
    rw [Buffer.buffered, hm1, hm2, Nat.sub_zero, hg4]
  have hinv2 : b2.inv := by
    constructor
    · rw [hm1]; omega
    · have hble := Buffer.buffered_le_size b1 hg2
      show b2.end_ ≤ b2.capacity
      rw [hm2, Buffer.capacity, hm3]
      exact hble
  obtain ⟨f1, f2, f3, f4, f5, f6, f7⟩ :=
    fillLoop_spec (b2.space_to_fill + 1) b2 src (by omega) hinv2 hsrc
  set K := min b2.space_to_fill (flatSrc src).length with hK
  set b3 := (fillLoop (b2.space_to_fill + 1) b2 src).1 with hb3
  set src' := (fillLoop (b2.space_to_fill + 1) b2 src).2 with hsrc'
  have hpair : fillLoop (b2.space_to_fill + 1) b2 src = (b3, src') := rfl
  have hsp2 : b2.space_to_fill = b1.buffer.size - b.buffered := by
    rw [Buffer.space_to_fill, hm3, hm2, hg4]
  have hKeq : K = (flatSrc src).length := by
    rw [hK, hsp2]
    omega
  have hbuf3 : b3.buffered = b.buffered + K := by
    rw [Buffer.buffered, f5, f3, hm1, hm2, hg4]
    omega
  have hb3n : ¬ (b3.buffered = 0) := by
    rw [hbuf3, hKeq]
    omega
  have hb3n2 : b3.buffered < n := by
    rw [hbuf3, hKeq]
    omega
  refine ⟨b3, src', ?_, ?_, f6, f7⟩
  · rw [ensure_buffered, if_pos hb]
    simp only [← hb1, ← hb2, hpair]
    rw [if_neg hb3n, if_pos hb3n2]
  · rw [availOf, f1, f2, hu2, hKeq]
    simp [availOf]

/-! ## `next_chunk` characterization -/

theorem List.getD_take_lt {l : List Nat} {n i : Nat} (h : i < n) :
    (l.take n).getD i 0 = l.getD i 0 := by
  simp [List.getD_eq_getElem?_getD, List.getElem?_take, h]

/-- The header fields a chunk header slice yields, in terms of the
reachable byte list it was read from. -/
theorem parse_header (data : Bytes) (avail : List Nat)
    (hsz : data.size = HEADER_SIZE) (htl : data.toList = avail.take HEADER_SIZE) :
    data.byte 3 <<< 16 ||| data.byte 2 <<< 8 ||| data.byte 1 = parse24 avail ∧
    data.byte 0 = avail.getD 0 0 := by
  have hb : ∀ i, i < 4 → data.byte i = avail.getD i 0 := by
    intro i hi
    have h1 : i < data.size := by rw [hsz]; exact hi
    have := Bytes.getD_toList data i h1
    rw [htl] at this
    rw [← this]
    exact List.getD_take_lt (by simp only [HEADER_SIZE]; omega)
  constructor
  · rw [parse24, hb 3 (by omega), hb 2 (by omega), hb 1 (by omega)]
  · exact hb 0 (by omega)

/-- `next_chunk` at clean end of stream. -/
theorem next_chunk_eof (b : Buffer) (src : Src)
    (hinv : b.inv) (hsrc : goodSrc src) (h0 : availOf b src = []) :
    ∃ b' src',
      next_chunk b src = (.ok none, b', src') ∧
      availOf b' src' = [] ∧ b'.inv ∧ goodSrc src' := by
  obtain ⟨b', src', hens, ha, hi, hs⟩ :=
    ensure_spec_eof b HEADER_SIZE src hinv hsrc h0 (by rw [HEADER_SIZE]; omega)
  refine ⟨b', src', ?_, ha, hi, hs⟩
  rw [next_chunk, hens]

/-- `next_chunk` when the reachable bytes cannot even hold a header. -/
theorem next_chunk_short_header (b : Buffer) (src : Src)
    (hinv : b.inv) (hsrc : goodSrc src)
    (h1 : 0 < (availOf b src).length) (h2 : (availOf b src).length < HEADER_SIZE) :
    ∃ b' src',
      next_chunk b src = (.ioError .incompleteChunk, b', src') ∧
      availOf b' src' = availOf b src ∧ b'.inv ∧ goodSrc src' := by
  obtain ⟨b', src', hens, ha, hi, hs⟩ :=
    ensure_spec_short b HEADER_SIZE src hinv hsrc h1 h2
  refine ⟨b', src', ?_, ha, hi, hs⟩
  rw [next_chunk, hens]

/-- `next_chunk` when a header was read but the source then ends cleanly
with a nonempty body outstanding: the expect-panic. -/
theorem next_chunk_missing_body (b : Buffer) (src : Src)
    (hinv : b.inv) (hsrc : goodSrc src)
    (h4 : (availOf b src).length = HEADER_SIZE) (hlen : 0 < parse24 (availOf b src)) :
    ∃ b' src',
      next_chunk b src = (.panicked .missingChunkData, b', src') ∧
      b'.inv ∧ goodSrc src' := by
  obtain ⟨data, b1, src1, hens, hdsz, hdtl, ha1, hi1, hs1⟩ :=
    ensure_spec_enough b HEADER_SIZE src hinv hsrc (by omega)
  obtain ⟨hp24, hp0⟩ := parse_header data (availOf b src) hdsz hdtl
  have ha1e : availOf b1 src1 = [] := by
    rw [ha1, List.drop_eq_nil_of_le (by omega)]
  obtain ⟨b2, src2, hens2, ha2, hi2, hs2⟩ :=
    ensure_spec_eof b1 (data.byte 3 <<< 16 ||| data.byte 2 <<< 8 ||| data.byte 1)
      src1 hi1 hs1 ha1e (by rw [hp24]; omega)
  refine ⟨b2, src2, ?_, hi2, hs2⟩
  simp only [next_chunk, hens, hens2]

/-- `next_chunk` when a header was read but the body is only partially
deliverable: the incomplete-chunk error. -/
theorem next_chunk_truncated_body (b : Buffer) (src : Src)
    (hinv : b.inv) (hsrc : goodSrc src)
    (h4 : HEADER_SIZE < (availOf b src).length)
    (hlen : (availOf b src).length < HEADER_SIZE + parse24 (availOf b src)) :
    ∃ b' src',
      next_chunk b src = (.ioError .incompleteChunk, b', src') ∧
      b'.inv ∧ goodSrc src' := by
  obtain ⟨data, b1, src1, hens, hdsz, hdtl, ha1, hi1, hs1⟩ :=
    ensure_spec_enough b HEADER_SIZE src hinv hsrc (by omega)
  obtain ⟨hp24, hp0⟩ := parse_header data (availOf b src) hdsz hdtl
  have hl1 : (availOf b1 src1).length = (availOf b src).length - HEADER_SIZE := by
    rw [ha1, List.length_drop]
  obtain ⟨b2, src2, hens2, ha2, hi2, hs2⟩ :=
    ensure_spec_short b1 (data.byte 3 <<< 16 ||| data.byte 2 <<< 8 ||| data.byte 1)
      src1 hi1 hs1 (by omega) (by rw [hp24]; omega)
  refine ⟨b2, src2, ?_, hi2, hs2⟩
  simp only [next_chunk, hens, hens2]

/-- `next_chunk` when the full chunk is reachable: the parsed chunk. -/
theorem next_chunk_ok (b : Buffer) (src : Src)
    (hinv : b.inv) (hsrc : goodSrc src)
    (hlen : HEADER_SIZE + parse24 (availOf b src) ≤ (availOf b src).length) :
    ∃ ch b' src',
      next_chunk b src = (.ok (some ch), b', src') ∧
      ch.chunk_type = (availOf b src).getD 0 0 ∧
      ch.data.size = parse24 (availOf b src) ∧
      ch.data.toList = ((availOf b src).drop HEADER_SIZE).take (parse24 (availOf b src)) ∧
      availOf b' src' = (availOf b src).drop (HEADER_SIZE + parse24 (availOf b src)) ∧
      b'.inv ∧ goodSrc src' := by
  obtain ⟨data, b1, src1, hens, hdsz, hdtl, ha1, hi1, hs1⟩ :=
    ensure_spec_enough b HEADER_SIZE src hinv hsrc (by omega)
  obtain ⟨hp24, hp0⟩ := parse_header data (availOf b src) hdsz hdtl
  have hl1 : (availOf b1 src1).length = (availOf b src).length - HEADER_SIZE := by
    rw [ha1, List.length_drop]
  obtain ⟨data2, b2, src2, hens2, hd2sz, hd2tl, ha2, hi2, hs2⟩ :=
    ensure_spec_enough b1 (data.byte 3 <<< 16 ||| data.byte 2 <<< 8 ||| data.byte 1)
      src1 hi1 hs1 (by rw [hp24]; omega)
  refine ⟨⟨data.byte 0, data2⟩, b2, src2, ?_, hp0, by rw [hd2sz, hp24], ?_, ?_, hi2, hs2⟩
  · simp only [next_chunk, hens, hens2]
  · rw [hd2tl, ha1, hp24]
  · rw [ha2, ha1, hp24, List.drop_drop]

/-! ## Chunk-loop supporting lemmas -/

theorem masked_crc_ext {a b : Bytes} (h : a.toList = b.toList) :
    masked_crc a = masked_crc b := by
  unfold masked_crc checksum_castagnoli
  rw [h]

theorem Buffer.copy_out_eq_consume (b : Buffer) (n : Nat) :
    b.copy_out_and_consume n = b.consume n := rfl

theorem Buffer.set_data_some {b : Buffer} {d : Bytes} {b' : Buffer}
    (h : b.set_data d = some b') :
    b'.unread = d.toList ∧ b'.inv ∧ b'.buffer.size = b.buffer.size ∧
    b'.buffered = d.size := by
  unfold Buffer.set_data at h
  split at h
  case isTrue hle =>
    injection h with h
    subst h
    refine ⟨?_, ⟨?_, ?_⟩, rfl, rfl⟩
    · apply List.map_congr_left
      intro a ha
      rw [List.mem_range] at ha
      simp only [Buffer.buffered, Nat.sub_zero] at ha
      simp only [Nat.zero_add]
      rw [if_pos ha]
    · show (0 : Nat) ≤ d.size
      omega
    · show d.size ≤ b.buffer.size
      exact hle
  case isFalse => exact absurd h (by simp)

theorem Buffer.set_data_none {b : Buffer} {d : Bytes}
    (h : ¬ (d.size ≤ b.buffer.size)) : b.set_data d = none := by
  unfold Buffer.set_data
  rw [if_neg h]

theorem Chunk.crc_of_ok (ch : Chunk) (h : CRC_SIZE ≤ ch.data.size) :
    ch.crc = .ok (parse32 ch.data.toList) := by
  unfold Chunk.crc
  rw [if_neg (by omega)]
  have hb : ∀ i, i < 4 → ch.data.byte i = ch.data.toList.getD i 0 := by
    intro i hi
    rw [Bytes.getD_toList]
    simp only [CRC_SIZE] at h
    omega
  rw [parse32, hb 0 (by omega), hb 1 (by omega), hb 2 (by omega), hb 3 (by omega)]

theorem Chunk.crc_of_short (ch : Chunk) (h : ch.data.size < CRC_SIZE) :
    ch.crc = .ioError .crcTruncated := by
  unfold Chunk.crc
  rw [if_pos h]

/-- One chunk-loop iteration over a reachable non-data chunk (type
`0x02..=0xFF`): the chunk is skipped and the loop continues with the
chunk's bytes consumed, the output untouched. -/
theorem chunkLoop_skip (uncompress : Bytes → Except Unit Bytes) (fuel : Nat)
    (st : SnappyFramedDecoder) (hgood : goodState st)
    (hlen : HEADER_SIZE + parse24 (availSt st) ≤ (availSt st).length)
    (hty0 : (availSt st).getD 0 0 ≠ 0x00) (hty1 : (availSt st).getD 0 0 ≠ 0x01) :
    ∃ st', chunkLoop uncompress (fuel + 1) st = chunkLoop uncompress fuel st' ∧
      goodState st' ∧
      availSt st' = (availSt st).drop (HEADER_SIZE + parse24 (availSt st)) ∧
      st'.output = st.output ∧ st'.mode = st.mode := by
  simp only [availSt] at hlen hty0 hty1 ⊢
  obtain ⟨hin, hout, hsrc, hcap⟩ := hgood
  obtain ⟨ch, b', src', hnc, hchty, hchsz, hchtl, ha', hi', hs'⟩ :=
    next_chunk_ok st.input st.source hin hsrc hlen
  refine ⟨{ st with input := b', source := src' }, ?_, ⟨hi', hout, hs', hcap⟩,
          ha', rfl, rfl⟩
  simp only [chunkLoop, hnc]
  rw [hchty]
  rw [if_neg hty0, if_neg hty1]

/-- One chunk-loop iteration over a reachable compressed (type `0x00`)
data chunk that decompresses to `d`, passes the CRC check and fits the
output buffer: the loop stops with the output holding `d`. -/
theorem chunkLoop_frame0 (uncompress : Bytes → Except Unit Bytes) (fuel : Nat)
    (st : SnappyFramedDecoder) (d : Bytes) (hgood : goodState st)
    (hlen : HEADER_SIZE + parse24 (availSt st) ≤ (availSt st).length)
    (hty : (availSt st).getD 0 0 = 0x00)
    (hcrcsz : CRC_SIZE ≤ parse24 (availSt st))
    (hunc : ∀ c : Bytes,
      c.toList =
        ((((availSt st).drop HEADER_SIZE).take (parse24 (availSt st))).drop CRC_SIZE) →
      uncompress c = .ok d)
    (hfit : d.size ≤ MAX_UNCOMPRESSED_CHUNK)
    (hcrc : st.mode = CrcMode.Verify →
      parse32 (((availSt st).drop HEADER_SIZE).take (parse24 (availSt st))) =
        masked_crc d) :
    ∃ st', chunkLoop uncompress (fuel + 1) st = (.ok true, st') ∧
      goodState st' ∧
      availSt st' = (availSt st).drop (HEADER_SIZE + parse24 (availSt st)) ∧
      st'.output.unread = d.toList ∧ st'.output.buffered = d.size ∧
      st'.mode = st.mode := by
  simp only [availSt] at hlen hty hcrcsz hunc hcrc ⊢
  obtain ⟨hin, hout, hsrc, hcap⟩ := hgood
  obtain ⟨ch, b', src', hnc, hchty, hchsz, hchtl, ha', hi', hs'⟩ :=
    next_chunk_ok st.input st.source hin hsrc hlen
  have hchcrc : ch.crc = .ok (parse32 ch.data.toList) :=
    Chunk.crc_of_ok ch (by omega)
  have huncv : uncompress (ch.data.drop CRC_SIZE) = .ok d := by
    apply hunc
    rw [Bytes.toList_drop, hchtl]
  have hccrc : (if st.mode = CrcMode.Verify
      then check_crc (parse32 ch.data.toList) d else .ok ()) = .ok () := by
    by_cases hm : st.mode = CrcMode.Verify
    · rw [if_pos hm, check_crc, hchtl, hcrc hm]
      simp
    · rw [if_neg hm]
  have hsd : ∃ out', st.output.set_data d = some out' := by
    unfold Buffer.set_data
    rw [if_pos (by omega)]
    exact ⟨_, rfl⟩
  obtain ⟨out', hsd⟩ := hsd
  obtain ⟨ho1, ho2, ho3, ho4⟩ := Buffer.set_data_some hsd
  refine ⟨{ st with input := b', source := src', output := out' }, ?_,
          ⟨hi', ho2, hs', by rw [ho3, hcap]⟩, ha', ho1, ho4, rfl⟩
  simp only [chunkLoop, hnc]
  rw [hchty, if_pos hty, hchcrc]
  simp only [huncv, hccrc, hsd]

theorem crc_gate_ne_panic (m : CrcMode) (c : Nat) (d : Bytes) (p : PanicKind) :
    (if m = CrcMode.Verify then check_crc c d else .ok ()) ≠ .panicked p := by
  by_cases hm : m = CrcMode.Verify
  · rw [if_pos hm]
    simp only [check_crc]
    split <;> simp
  · rw [if_neg hm]
    simp

/-- The chunk loop is driven entirely by the reachable byte list, the
CRC mode and the output capacity: two decoder states that agree on those
produce the same result and (when the result is not fatal) agree again
afterwards.  This is the heart of read-granularity independence. -/
theorem chunkLoop_agrees (uncompress : Bytes → Except Unit Bytes)
    (hext : ∀ a b : Bytes, a.toList = b.toList → uncompress a = uncompress b) :
    ∀ (fuel1 fuel2 : Nat) (st1 st2 : SnappyFramedDecoder),
    availSt st1 = availSt st2 →
    st1.mode = st2.mode →
    st1.output.unread = st2.output.unread →
    goodState st1 → goodState st2 →
    (availSt st1).length < fuel1 → (availSt st2).length < fuel2 →
    ∃ r st1' st2',
      chunkLoop uncompress fuel1 st1 = (r, st1') ∧
      chunkLoop uncompress fuel2 st2 = (r, st2') ∧
      st1'.mode = st1.mode ∧ st2'.mode = st2.mode ∧
      goodState st1' ∧ goodState st2' ∧
      (∀ bl, r = .ok bl →
        availSt st1' = availSt st2' ∧ st1'.output.unread = st2'.output.unread) ∧
      (r = .ok true → (availSt st1').length + 8 ≤ (availSt st1).length) := by
  intro fuel1
  induction fuel1 with
  | zero => intro fuel2 st1 st2 _ _ _ _ _ hf1 _; omega
  | succ fuel1 ih =>
    intro fuel2 st1 st2 havail hmode hout hg1 hg2 hf1 hf2
    match fuel2, hf2 with
    | fuel2 + 1, hf2 =>
    obtain ⟨hin1, hov1, hsr1, hcp1⟩ := hg1
    obtain ⟨hin2, hov2, hsr2, hcp2⟩ := hg2
    have hO : availOf st1.input st1.source = availOf st2.input st2.source := havail
    have hf1O : (availOf st1.input st1.source).length < fuel1 + 1 := hf1
    have hf2O : (availOf st1.input st1.source).length < fuel2 + 1 := by
      rw [hO]
      exact hf2
    by_cases h0 : availOf st1.input st1.source = []
    · -- clean end of stream on both sides
      obtain ⟨b1, s1, hnc1, ha1, hi1, hs1⟩ :=
        next_chunk_eof st1.input st1.source hin1 hsr1 h0
      obtain ⟨b2, s2, hnc2, ha2, hi2, hs2⟩ :=
        next_chunk_eof st2.input st2.source hin2 hsr2 (by rw [← hO]; exact h0)
      refine ⟨.ok false, { st1 with input := b1, source := s1 },
              { st2 with input := b2, source := s2 }, ?_, ?_,
              rfl, rfl, ⟨hi1, hov1, hs1, hcp1⟩, ⟨hi2, hov2, hs2, hcp2⟩,
              ?_, by intro h; simp at h⟩
      · simp only [chunkLoop, hnc1]
      · simp only [chunkLoop, hnc2]
      · intro bl _
        refine ⟨?_, hout⟩
        show availOf b1 s1 = availOf b2 s2
        rw [ha1, ha2]
    · have hpos : 0 < (availOf st1.input st1.source).length := List.length_pos.mpr h0
      by_cases hsh : (availOf st1.input st1.source).length < HEADER_SIZE
      · -- not even a full header
        obtain ⟨b1, s1, hnc1, ha1, hi1, hs1⟩ :=
          next_chunk_short_header st1.input st1.source hin1 hsr1 hpos hsh
        obtain ⟨b2, s2, hnc2, ha2, hi2, hs2⟩ :=
          next_chunk_short_header st2.input st2.source hin2 hsr2
            (by rw [← hO]; exact hpos) (by rw [← hO]; exact hsh)
        refine ⟨.ioError .incompleteChunk, { st1 with input := b1, source := s1 },
                { st2 with input := b2, source := s2 }, ?_, ?_,
                rfl, rfl, ⟨hi1, hov1, hs1, hcp1⟩, ⟨hi2, hov2, hs2, hcp2⟩,
                by intro bl h; simp at h, by intro h; simp at h⟩
        · simp only [chunkLoop, hnc1]
        · simp only [chunkLoop, hnc2]
      · by_cases hfull :
          HEADER_SIZE + parse24 (availOf st1.input st1.source) ≤
            (availOf st1.input st1.source).length
        · -- a full chunk is reachable on both sides
          obtain ⟨ch1, b1, s1, hnc1, hty1, hsz1, htl1, ha1, hi1, hs1⟩ :=
            next_chunk_ok st1.input st1.source hin1 hsr1 hfull
          obtain ⟨ch2, b2, s2, hnc2, hty2, hsz2, htl2, ha2, hi2, hs2⟩ :=
            next_chunk_ok st2.input st2.source hin2 hsr2 (by rw [← hO]; exact hfull)
          rw [← hO] at hty2 hsz2 htl2 ha2
          have hchty : ch2.chunk_type = ch1.chunk_type := by rw [hty1, hty2]
          have hchsz : ch2.data.size = ch1.data.size := by rw [hsz1, hsz2]
          have hchtl : ch2.data.toList = ch1.data.toList := by rw [htl1, htl2]
          have hAeq : availOf b1 s1 = availOf b2 s2 := by rw [ha1, ha2]
          have hdec : (availOf b1 s1).length =
              (availOf st1.input st1.source).length -
                (HEADER_SIZE + parse24 (availOf st1.input st1.source)) := by
            rw [ha1, List.length_drop]
          by_cases ht0 : (availOf st1.input st1.source).getD 0 0 = 0x00
          · -- compressed data chunk
            by_cases hcs : ch1.data.size < CRC_SIZE
            · have hc1 := Chunk.crc_of_short ch1 hcs
              have hc2 := Chunk.crc_of_short ch2 (by omega)
              refine ⟨.ioError .crcTruncated, { st1 with input := b1, source := s1 },
                      { st2 with input := b2, source := s2 }, ?_, ?_,
                      rfl, rfl, ⟨hi1, hov1, hs1, hcp1⟩, ⟨hi2, hov2, hs2, hcp2⟩,
                      by intro bl h; simp at h, by intro h; simp at h⟩
              · simp only [chunkLoop, hnc1]
                rw [hty1, if_pos ht0]
                simp only [hc1]
              · simp only [chunkLoop, hnc2]
                rw [hty2, if_pos ht0]
                simp only [hc2]
            · have hc1 := Chunk.crc_of_ok ch1 (by omega)
              have hc2 := Chunk.crc_of_ok ch2 (by omega)
              rw [hchtl] at hc2
              have huncs : uncompress (ch2.data.drop CRC_SIZE) =
                  uncompress (ch1.data.drop CRC_SIZE) := by
                apply hext
                rw [Bytes.toList_drop, Bytes.toList_drop, hchtl]
              rcases hu : uncompress (ch1.data.drop CRC_SIZE) with u | d
              · refine ⟨.panicked .decompressionFailure,
                        { st1 with input := b1, source := s1 },
                        { st2 with input := b2, source := s2 }, ?_, ?_,
                        rfl, rfl, ⟨hi1, hov1, hs1, hcp1⟩,
                        ⟨hi2, hov2, hs2, hcp2⟩,
                        by intro bl h; simp at h, by intro h; simp at h⟩
                · simp only [chunkLoop, hnc1]
                  rw [hty1, if_pos ht0]
                  simp only [hc1, hu]
                · simp only [chunkLoop, hnc2]
                  rw [hty2, if_pos ht0]
                  simp only [hc2, huncs, hu]
              · have hck2 : (if st2.mode = CrcMode.Verify
                    then check_crc (parse32 ch1.data.toList) d else .ok ()) =
                    (if st1.mode = CrcMode.Verify
                    then check_crc (parse32 ch1.data.toList) d else .ok ()) := by
                  rw [hmode]
                rcases hck : (if st1.mode = CrcMode.Verify
                    then check_crc (parse32 ch1.data.toList) d else .ok ()) with
                  u | e | p
                · by_cases hfits : d.size ≤ MAX_UNCOMPRESSED_CHUNK
                  · have hsd1 : ∃ o1, st1.output.set_data d = some o1 := by
                      unfold Buffer.set_data
                      rw [if_pos (by omega)]
                      exact ⟨_, rfl⟩
                    have hsd2 : ∃ o2, st2.output.set_data d = some o2 := by
                      unfold Buffer.set_data
                      rw [if_pos (by omega)]
                      exact ⟨_, rfl⟩
                    obtain ⟨o1, hsd1⟩ := hsd1
                    obtain ⟨o2, hsd2⟩ := hsd2
                    obtain ⟨p11, p12, p13, p14⟩ := Buffer.set_data_some hsd1
                    obtain ⟨p21, p22, p23, p24⟩ := Buffer.set_data_some hsd2
                    refine ⟨.ok true,
                            { st1 with input := b1, source := s1, output := o1 },
                            { st2 with input := b2, source := s2, output := o2 }, ?_, ?_,
                            rfl, rfl,
                            ⟨hi1, p12, hs1, by rw [p13, hcp1]⟩,
                            ⟨hi2, p22, hs2, by rw [p23, hcp2]⟩,
                            by intro bl _; exact ⟨hAeq, by rw [p11, p21]⟩, ?_⟩
                    · simp only [chunkLoop, hnc1]
                      rw [hty1, if_pos ht0]
                      simp only [hc1, hu, hck, hsd1]
                    · simp only [chunkLoop, hnc2]
                      rw [hty2, if_pos ht0]
                      simp only [hc2, huncs, hu, hck2, hck, hsd2]
                    · intro _
                      show (availOf b1 s1).length + 8 ≤ (availOf st1.input st1.source).length
                      rw [hsz1] at hcs
                      simp only [CRC_SIZE] at hcs
                      simp only [HEADER_SIZE] at hfull hdec
                      omega
                  · refine ⟨.panicked .setDataAssert,
                            { st1 with input := b1, source := s1 },
                            { st2 with input := b2, source := s2 }, ?_, ?_,
                            rfl, rfl, ⟨hi1, hov1, hs1, hcp1⟩,
                            ⟨hi2, hov2, hs2, hcp2⟩,
                            by intro bl h; simp at h, by intro h; simp at h⟩
                    · simp only [chunkLoop, hnc1]
                      rw [hty1, if_pos ht0]
                      simp only [hc1, hu, hck,
                                 Buffer.set_data_none
                                   (show ¬ (d.size ≤ st1.output.buffer.size) by omega)]
                    · simp only [chunkLoop, hnc2]
                      rw [hty2, if_pos ht0]
                      simp only [hc2, huncs, hu, hck2, hck,
                                 Buffer.set_data_none
                                   (show ¬ (d.size ≤ st2.output.buffer.size) by omega)]
                · refine ⟨.ioError e, { st1 with input := b1, source := s1 },
                          { st2 with input := b2, source := s2 }, ?_, ?_,
                          rfl, rfl, ⟨hi1, hov1, hs1, hcp1⟩,
                          ⟨hi2, hov2, hs2, hcp2⟩,
                          by intro bl h; simp at h, by intro h; simp at h⟩
                  · simp only [chunkLoop, hnc1]
                    rw [hty1, if_pos ht0]
                    simp only [hc1, hu, hck]
                  · simp only [chunkLoop, hnc2]
                    rw [hty2, if_pos ht0]
                    simp only [hc2, huncs, hu, hck2, hck]
                · exact absurd hck (crc_gate_ne_panic _ _ _ _)
          · by_cases ht1 : (availOf st1.input st1.source).getD 0 0 = 0x01
            · -- uncompressed data chunk
              by_cases hcs : ch1.data.size < CRC_SIZE
              · have hc1 := Chunk.crc_of_short ch1 hcs
                have hc2 := Chunk.crc_of_short ch2 (by omega)
                refine ⟨.ioError .crcTruncated, { st1 with input := b1, source := s1 },
                        { st2 with input := b2, source := s2 }, ?_, ?_,
                        rfl, rfl, ⟨hi1, hov1, hs1, hcp1⟩, ⟨hi2, hov2, hs2, hcp2⟩,
                        by intro bl h; simp at h, by intro h; simp at h⟩
                · simp only [chunkLoop, hnc1]
                  rw [hty1, if_neg ht0, if_pos ht1]
                  simp only [hc1]
                · simp only [chunkLoop, hnc2]
                  rw [hty2, if_neg ht0, if_pos ht1]
                  simp only [hc2]
              · have hc1 := Chunk.crc_of_ok ch1 (by omega)
                have hc2 := Chunk.crc_of_ok ch2 (by omega)
                rw [hchtl] at hc2
                have hmeq : masked_crc (ch2.data.drop CRC_SIZE) =
                    masked_crc (ch1.data.drop CRC_SIZE) := by
                  apply masked_crc_ext
                  rw [Bytes.toList_drop, Bytes.toList_drop, hchtl]
                have hckeq : check_crc (parse32 ch1.data.toList) (ch2.data.drop CRC_SIZE) =
                    check_crc (parse32 ch1.data.toList) (ch1.data.drop CRC_SIZE) := by
                  unfold check_crc
                  rw [hmeq]
                have hck2 : (if st2.mode = CrcMode.Verify
                    then check_crc (parse32 ch1.data.toList) (ch2.data.drop CRC_SIZE)
                    else .ok ()) =
                    (if st1.mode = CrcMode.Verify
                    then check_crc (parse32 ch1.data.toList) (ch1.data.drop CRC_SIZE)
                    else .ok ()) := by
                  rw [hmode, hckeq]
                rcases hck : (if st1.mode = CrcMode.Verify
                    then check_crc (parse32 ch1.data.toList) (ch1.data.drop CRC_SIZE)
                    else .ok ()) with u | e | p
                · by_cases hfits : (ch1.data.drop CRC_SIZE).size ≤ MAX_UNCOMPRESSED_CHUNK
                  · have hds : (ch2.data.drop CRC_SIZE).size = (ch1.data.drop CRC_SIZE).size := by
                      simp only [Bytes.size_drop, hchsz]
                    have hsd1 : ∃ o1, st1.output.set_data (ch1.data.drop CRC_SIZE) = some o1 := by
                      unfold Buffer.set_data
                      rw [if_pos (by omega)]
                      exact ⟨_, rfl⟩
                    have hsd2 : ∃ o2, st2.output.set_data (ch2.data.drop CRC_SIZE) = some o2 := by
                      unfold Buffer.set_data
                      rw [if_pos (by omega)]
                      exact ⟨_, rfl⟩
                    obtain ⟨o1, hsd1⟩ := hsd1
                    obtain ⟨o2, hsd2⟩ := hsd2
                    obtain ⟨p11, p12, p13, p14⟩ := Buffer.set_data_some hsd1
                    obtain ⟨p21, p22, p23, p24⟩ := Buffer.set_data_some hsd2
                    refine ⟨.ok true,
                            { st1 with input := b1, source := s1, output := o1 },
                            { st2 with input := b2, source := s2, output := o2 }, ?_, ?_,
                            rfl, rfl,
                            ⟨hi1, p12, hs1, by rw [p13, hcp1]⟩,
                            ⟨hi2, p22, hs2, by rw [p23, hcp2]⟩, ?_, ?_⟩
                    · simp only [chunkLoop, hnc1]
                      rw [hty1, if_neg ht0, if_pos ht1]
                      simp only [hc1, hck, hsd1]
                    · simp only [chunkLoop, hnc2]
                      rw [hty2, if_neg ht0, if_pos ht1]
                      simp only [hc2, hck2, hck, hsd2]
                    · intro bl _
                      refine ⟨hAeq, ?_⟩
                      rw [p11, p21, Bytes.toList_drop, Bytes.toList_drop, hchtl]
                    · intro _
                      show (availOf b1 s1).length + 8 ≤ (availOf st1.input st1.source).length
                      rw [hsz1] at hcs
                      simp only [CRC_SIZE] at hcs
                      simp only [HEADER_SIZE] at hfull hdec
                      omega
                  · have hds : (ch2.data.drop CRC_SIZE).size = (ch1.data.drop CRC_SIZE).size := by
                      simp only [Bytes.size_drop, hchsz]
                    refine ⟨.panicked .setDataAssert,
                            { st1 with input := b1, source := s1 },
                            { st2 with input := b2, source := s2 }, ?_, ?_,
                            rfl, rfl, ⟨hi1, hov1, hs1, hcp1⟩,
                            ⟨hi2, hov2, hs2, hcp2⟩,
                            by intro bl h; simp at h, by intro h; simp at h⟩
                    · simp only [chunkLoop, hnc1]
                      rw [hty1, if_neg ht0, if_pos ht1]
                      simp only [hc1, hck,
                                 Buffer.set_data_none
                                   (show ¬ ((ch1.data.drop CRC_SIZE).size ≤ st1.output.buffer.size) by omega)]
                    · simp only [chunkLoop, hnc2]
                      rw [hty2, if_neg ht0, if_pos ht1]
                      simp only [hc2, hck2, hck,
                                 Buffer.set_data_none
                                   (show ¬ ((ch2.data.drop CRC_SIZE).size ≤ st2.output.buffer.size) by omega)]
                · refine ⟨.ioError e, { st1 with input := b1, source := s1 },
                          { st2 with input := b2, source := s2 }, ?_, ?_,
                          rfl, rfl, ⟨hi1, hov1, hs1, hcp1⟩,
                          ⟨hi2, hov2, hs2, hcp2⟩,
                          by intro bl h; simp at h, by intro h; simp at h⟩
                  · simp only [chunkLoop, hnc1]
                    rw [hty1, if_neg ht0, if_pos ht1]
                    simp only [hc1, hck]
                  · simp only [chunkLoop, hnc2]
                    rw [hty2, if_neg ht0, if_pos ht1]
                    simp only [hc2, hck2, hck]
                · exact absurd hck (crc_gate_ne_panic _ _ _ _)
            · -- non-data chunk: skip on both sides and recurse
              obtain ⟨st1', he1, hg1', ha1', ho1', hm1'⟩ :=
                chunkLoop_skip uncompress fuel1 st1 ⟨hin1, hov1, hsr1, hcp1⟩ hfull ht0 ht1
              obtain ⟨st2', he2, hg2', ha2', ho2', hm2'⟩ :=
                chunkLoop_skip uncompress fuel2 st2 ⟨hin2, hov2, hsr2, hcp2⟩
                  (show HEADER_SIZE + parse24 (availSt st2) ≤ (availSt st2).length by
                    rw [show availSt st2 = availOf st1.input st1.source from hO.symm]
                    exact hfull)
                  (show (availSt st2).getD 0 0 ≠ 0x00 by
                    rw [show availSt st2 = availOf st1.input st1.source from hO.symm]
                    exact ht0)
                  (show (availSt st2).getD 0 0 ≠ 0x01 by
                    rw [show availSt st2 = availOf st1.input st1.source from hO.symm]
                    exact ht1)
              have ha1O : availSt st1' =
                  (availOf st1.input st1.source).drop
                    (HEADER_SIZE + parse24 (availOf st1.input st1.source)) := ha1'
              have ha2O : availSt st2' =
                  (availOf st1.input st1.source).drop
                    (HEADER_SIZE + parse24 (availOf st1.input st1.source)) := by
                rw [ha2']
                rw [show availSt st2 = availOf st1.input st1.source from hO.symm]
              have havail' : availSt st1' = availSt st2' := by rw [ha1O, ha2O]
              have hlen1' : (availSt st1').length < fuel1 := by
                rw [ha1O, List.length_drop]
                simp only [HEADER_SIZE] at *
                omega
              have hlen2' : (availSt st2').length < fuel2 := by
                rw [ha2O, List.length_drop]
                simp only [HEADER_SIZE] at *
                omega
              obtain ⟨r, st1'', st2'', q1, q2, q4, q5, q7, q8, qok, q9⟩ :=
                ih fuel2 st1' st2' havail'
                  (by rw [hm1', hm2', hmode])
                  (by rw [ho1', ho2', hout]) hg1' hg2' hlen1' hlen2'
              refine ⟨r, st1'', st2'', by rw [he1, q1], by rw [he2, q2],
                      by rw [q4, hm1'], by rw [q5, hm2'], q7, q8, qok, ?_⟩
              intro hr
              have hq := q9 hr
              rw [ha1O, List.length_drop] at hq
              show (availSt st1'').length + 8 ≤ (availOf st1.input st1.source).length
              omega
        · -- header readable but body not fully deliverable
          by_cases h4 : (availOf st1.input st1.source).length = HEADER_SIZE
          · have hl0 : 0 < parse24 (availOf st1.input st1.source) := by omega
            obtain ⟨b1, s1, hnc1, hi1, hs1⟩ :=
              next_chunk_missing_body st1.input st1.source hin1 hsr1 h4 hl0
            obtain ⟨b2, s2, hnc2, hi2, hs2⟩ :=
              next_chunk_missing_body st2.input st2.source hin2 hsr2
                (by rw [← hO]; exact h4) (by rw [← hO]; exact hl0)
            refine ⟨.panicked .missingChunkData, { st1 with input := b1, source := s1 },
                    { st2 with input := b2, source := s2 }, ?_, ?_,
                    rfl, rfl, ⟨hi1, hov1, hs1, hcp1⟩, ⟨hi2, hov2, hs2, hcp2⟩,
                    by intro bl h; simp at h, by intro h; simp at h⟩
            · simp only [chunkLoop, hnc1]
            · simp only [chunkLoop, hnc2]
          · have h4' : HEADER_SIZE < (availOf st1.input st1.source).length := by omega
            obtain ⟨b1, s1, hnc1, hi1, hs1⟩ :=
              next_chunk_truncated_body st1.input st1.source hin1 hsr1 h4' (by omega)
            obtain ⟨b2, s2, hnc2, hi2, hs2⟩ :=
              next_chunk_truncated_body st2.input st2.source hin2 hsr2
                (by rw [← hO]; exact h4') (by rw [← hO]; omega)
            refine ⟨.ioError .incompleteChunk, { st1 with input := b1, source := s1 },
                    { st2 with input := b2, source := s2 }, ?_, ?_,
                    rfl, rfl, ⟨hi1, hov1, hs1, hcp1⟩, ⟨hi2, hov2, hs2, hcp2⟩,
                    by intro bl h; simp at h, by intro h; simp at h⟩
            · simp only [chunkLoop, hnc1]
            · simp only [chunkLoop, hnc2]

/-- Draining a full output buffer whose content fits the request. -/
theorem Buffer.drain (b : Buffer) (k : Nat) (hinv : b.inv)
    (hcap : b.buffer.size = MAX_UNCOMPRESSED_CHUNK) (hk : MAX_UNCOMPRESSED_CHUNK ≤ k) :
    min b.buffered k = b.buffered ∧
    (b.copy_out_and_consume (min b.buffered k)).1.toList = b.unread ∧
    (b.copy_out_and_consume (min b.buffered k)).2.unread = [] ∧
    (b.copy_out_and_consume (min b.buffered k)).2.inv ∧
    (b.copy_out_and_consume (min b.buffered k)).2.buffer.size = b.buffer.size := by
  have hble := Buffer.buffered_le_size b hinv
  have hmin : min b.buffered k = b.buffered := by omega
  rw [hmin, Buffer.copy_out_eq_consume]
  refine ⟨rfl, ?_, ?_, ?_, rfl⟩
  · rw [Buffer.consume_fst b b.buffered (le_refl _)]
    exact List.take_of_length_le (by simp)
  · rw [Buffer.consume_snd_unread b b.buffered (le_refl _)]
    apply List.drop_eq_nil_of_le
    simp
  · obtain ⟨h1, h2⟩ := hinv
    constructor
    · show b.begin + b.buffered ≤ b.end_
      simp only [Buffer.buffered]
      omega
    · exact h2

/-- One `read` call is driven by the reachable bytes, the mode and the
output capacity (outputs empty on entry). -/
theorem read_agrees (uncompress : Bytes → Except Unit Bytes)
    (hext : ∀ a b : Bytes, a.toList = b.toList → uncompress a = uncompress b)
    (k fuel1 fuel2 : Nat) (st1 st2 : SnappyFramedDecoder)
    (havail : availSt st1 = availSt st2)
    (hmode : st1.mode = st2.mode)
    (hout1 : st1.output.unread = []) (hout2 : st2.output.unread = [])
    (hg1 : goodState st1) (hg2 : goodState st2)
    (hk : MAX_UNCOMPRESSED_CHUNK ≤ k)
    (hf1 : (availSt st1).length < fuel1) (hf2 : (availSt st2).length < fuel2) :
    ∃ res st1' st2',
      SnappyFramedDecoder.read uncompress fuel1 st1 k = (res, st1') ∧
      SnappyFramedDecoder.read uncompress fuel2 st2 k = (res, st2') ∧
      st1'.mode = st1.mode ∧ st2'.mode = st2.mode ∧
      goodState st1' ∧ goodState st2' ∧
      (∀ bs, res = .ok bs →
        availSt st1' = availSt st2' ∧
        (bs ≠ [] → st1'.output.unread = [] ∧ st2'.output.unread = [] ∧
          (availSt st1').length + 8 ≤ (availSt st1).length)) := by
  have he1 : st1.output.empty = true := by
    have : st1.output.buffered = 0 := by
      have := congrArg List.length hout1
      simpa using this
    simp [Buffer.empty, this]
  have he2 : st2.output.empty = true := by
    have : st2.output.buffered = 0 := by
      have := congrArg List.length hout2
      simpa using this
    simp [Buffer.empty, this]
  obtain ⟨r, st1c, st2c, hcl1, hcl2, hm1, hm2, hgc1, hgc2, hok, hdec⟩ :=
    chunkLoop_agrees uncompress hext fuel1 fuel2 st1 st2 havail hmode
      (by rw [hout1, hout2]) hg1 hg2 hf1 hf2
  rcases r with bl | e | p
  · rcases bl with _ | _
    · -- clean end of stream: Ok(0)
      refine ⟨.ok [], st1c, st2c, ?_, ?_, hm1, hm2, hgc1, hgc2, ?_⟩
      · rw [SnappyFramedDecoder.read, if_pos he1, hcl1]
      · rw [SnappyFramedDecoder.read, if_pos he2, hcl2]
      · intro bs hbs
        injection hbs with hbs
        subst hbs
        exact ⟨(hok false rfl).1, by intro h; exact absurd rfl h⟩
    · -- a data chunk filled the output; it is drained completely
      obtain ⟨haeq, houteq⟩ := hok true rfl
      obtain ⟨hgc11, hgc12, hgc13, hgc14⟩ := hgc1
      obtain ⟨hgc21, hgc22, hgc23, hgc24⟩ := hgc2
      obtain ⟨hq1, hq2, hq3, hq4, hq5⟩ := Buffer.drain st1c.output k hgc12 hgc14 hk
      obtain ⟨hw1, hw2, hw3, hw4, hw5⟩ := Buffer.drain st2c.output k hgc22 hgc24 hk
      have hbufeq : st2c.output.buffered = st1c.output.buffered := by
        have h := congrArg List.length houteq
        simp only [Buffer.length_unread] at h
        exact h.symm
      refine ⟨.ok st1c.output.unread,
              { st1c with output := (st1c.output.copy_out_and_consume
                  (min st1c.output.buffered k)).2 },
              { st2c with output := (st2c.output.copy_out_and_consume
                  (min st2c.output.buffered k)).2 }, ?_, ?_, hm1, hm2,
              ⟨hgc11, hq4, hgc13, by rw [hq5, hgc14]⟩,
              ⟨hgc21, hw4, hgc23, by rw [hw5, hgc24]⟩, ?_⟩
      · rw [SnappyFramedDecoder.read, if_pos he1, hcl1]
        simp only [hq2]
      · rw [SnappyFramedDecoder.read, if_pos he2, hcl2]
        simp only [hw2, ← houteq]
      · intro bs hbs
        injection hbs with hbs
        refine ⟨haeq, fun _ => ⟨hq3, hw3, hdec rfl⟩⟩
  · refine ⟨.ioError e, st1c, st2c, ?_, ?_, hm1, hm2, hgc1, hgc2,
            by intro bs h; simp at h⟩
    · rw [SnappyFramedDecoder.read, if_pos he1, hcl1]
    · rw [SnappyFramedDecoder.read, if_pos he2, hcl2]
  · refine ⟨.panicked p, st1c, st2c, ?_, ?_, hm1, hm2, hgc1, hgc2,
            by intro bs h; simp at h⟩
    · rw [SnappyFramedDecoder.read, if_pos he1, hcl1]
    · rw [SnappyFramedDecoder.read, if_pos he2, hcl2]

/-- `read_to_end` is driven by the reachable bytes, the mode and the
output capacity: the decoded result is independent of the decoder state's
internal buffering. -/
theorem read_to_end_agrees (uncompress : Bytes → Except Unit Bytes)
    (hext : ∀ a b : Bytes, a.toList = b.toList → uncompress a = uncompress b) :
    ∀ (N fuelO1 fuelO2 fuelI1 fuelI2 : Nat) (st1 st2 : SnappyFramedDecoder)
      (acc : List Nat),
    (availSt st1).length ≤ N →
    availSt st1 = availSt st2 →
    st1.mode = st2.mode →
    st1.output.unread = [] → st2.output.unread = [] →
    goodState st1 → goodState st2 →
    (availSt st1).length < fuelI1 → (availSt st2).length < fuelI2 →
    (availSt st1).length < fuelO1 → (availSt st2).length < fuelO2 →
    (read_to_end uncompress fuelO1 fuelI1 st1 acc).1 =
      (read_to_end uncompress fuelO2 fuelI2 st2 acc).1 := by
  intro N
  induction N using Nat.strong_induction_on with
  | _ N ih =>
    intro fuelO1 fuelO2 fuelI1 fuelI2 st1 st2 acc hN havail hmode hout1 hout2
      hg1 hg2 hfI1 hfI2 hfO1 hfO2
    have hl2 : (availSt st2).length = (availSt st1).length := by rw [havail]
    match fuelO1, hfO1 with
    | fuelO1 + 1, hfO1 =>
    match fuelO2, hfO2 with
    | fuelO2 + 1, hfO2 =>
    obtain ⟨res, st1', st2', hr1, hr2, hm1, hm2, hg1', hg2', hok⟩ :=
      read_agrees uncompress hext MAX_UNCOMPRESSED_CHUNK fuelI1 fuelI2 st1 st2
        havail hmode hout1 hout2 hg1 hg2 (le_refl _) hfI1 hfI2
    rcases res with bs | e | p
    · rcases bs with _ | ⟨b, bs⟩
      · simp only [read_to_end, hr1, hr2]
      · obtain ⟨haeq, hrest⟩ := hok (b :: bs) rfl
        obtain ⟨ho1', ho2', hdec⟩ := hrest (by simp)
        simp only [read_to_end, hr1, hr2]
        apply ih (availSt st1').length (by omega) fuelO1 fuelO2 fuelI1 fuelI2
          st1' st2' (acc ++ b :: bs) (le_refl _) haeq
          (by rw [hm1, hm2, hmode]) ho1' ho2' hg1' hg2'
        · omega
        · rw [← haeq]; omega
        · omega
        · rw [← haeq]; omega
    · simp only [read_to_end, hr1, hr2]
    · simp only [read_to_end, hr1, hr2]

theorem flatSrc_length (src : Src) : (flatSrc src).length = srcSize src := by
  simp [flatSrc, srcSize, List.length_flatten, List.map_map, Function.comp_def,
    Bytes.length_toList]

theorem availSt_new (src : Src) (mode : CrcMode) :
    availSt (SnappyFramedDecoder.new src mode) = flatSrc src := by
  simp [availSt, availOf, SnappyFramedDecoder.new, Buffer.unread_new]

theorem goodState_new (src : Src) (mode : CrcMode) (hg : goodSrc src) :
    goodState (SnappyFramedDecoder.new src mode) :=
  ⟨Buffer.inv_new _, Buffer.inv_new _, hg, rfl⟩

theorem unread_new_out (src : Src) (mode : CrcMode) :
    (SnappyFramedDecoder.new src mode).output.unread = [] :=
  Buffer.unread_new _

/-- C9: for every extensional external decompressor and CRC mode, two
decoder runs whose sources deliver the same byte stream — in arbitrarily
different partitions, each read delivering at least one byte — produce
the same decoded result (the same output bytes on success, and the same
error or panic otherwise). -/
theorem C9_read_granularity_invariance (uncompress : Bytes → Except Unit Bytes)
    (hext : ∀ a b : Bytes, a.toList = b.toList → uncompress a = uncompress b)
    (mode : CrcMode) (src1 src2 : Src)
    (hg1 : goodSrc src1) (hg2 : goodSrc src2)
    (hflat : flatSrc src1 = flatSrc src2) :
    decodeSource uncompress mode src1 = decodeSource uncompress mode src2 := by
  unfold decodeSource
  apply read_to_end_agrees uncompress hext (flatSrc src1).length
  · rw [availSt_new]
  · rw [availSt_new, availSt_new, hflat]
  · rfl
  · exact unread_new_out src1 mode
  · exact unread_new_out src2 mode
  · exact goodState_new src1 mode hg1
  · exact goodState_new src2 mode hg2
  · rw [availSt_new, flatSrc_length]; omega
  · rw [availSt_new, flatSrc_length]; omega
  · rw [availSt_new, flatSrc_length]; omega
  · rw [availSt_new, flatSrc_length]; omega

/-- A one-shot source delivering a well-formed padded stream in a single
read decodes identically to a source delivering the same bytes one at a
time. -/
theorem C9_witness :
    goodSrc [Bytes.ofList [0xfe, 4, 0, 0, 0, 0, 0, 0]] ∧
    goodSrc [Bytes.ofList [0xfe], Bytes.ofList [4], Bytes.ofList [0],
      Bytes.ofList [0], Bytes.ofList [0], Bytes.ofList [0], Bytes.ofList [0],
      Bytes.ofList [0]] ∧
    flatSrc [Bytes.ofList [0xfe, 4, 0, 0, 0, 0, 0, 0]] =
      flatSrc [Bytes.ofList [0xfe], Bytes.ofList [4], Bytes.ofList [0],
        Bytes.ofList [0], Bytes.ofList [0], Bytes.ofList [0], Bytes.ofList [0],
        Bytes.ofList [0]] ∧
    decodeSource (fun b => .ok (Bytes.ofList b.toList)) CrcMode.Ignore
        [Bytes.ofList [0xfe, 4, 0, 0, 0, 0, 0, 0]] =
      decodeSource (fun b => .ok (Bytes.ofList b.toList)) CrcMode.Ignore
        [Bytes.ofList [0xfe], Bytes.ofList [4], Bytes.ofList [0],
         Bytes.ofList [0], Bytes.ofList [0], Bytes.ofList [0], Bytes.ofList [0],
         Bytes.ofList [0]] :=
  ⟨by unfold goodSrc; decide, by unfold goodSrc; decide, by decide,
   C9_read_granularity_invariance (fun b => .ok (Bytes.ofList b.toList))
     (fun a b h => by simp only [h]) CrcMode.Ignore _ _
     (by unfold goodSrc; decide) (by unfold goodSrc; decide) (by decide)⟩

theorem parse24_le24 (t n : Nat) (rest : List Nat) (h : n < 2 ^ 24) :
    parse24 (t :: (le24 n ++ rest)) = n := by
  have p8 : (2 : Nat) ^ 8 = 256 := by norm_num
  have p24 : (2 : Nat) ^ 24 = 16777216 := by norm_num
  rw [p24] at h
  have e : t :: (le24 n ++ rest) =
      t :: n % 256 :: n / 256 % 256 :: n / 65536 % 256 :: rest := by
    simp [le24]
  rw [e, parse24]
  simp only [List.getD_cons_succ, List.getD_cons_zero]
  rw [Nat.shiftLeft_eq, Nat.shiftLeft_eq]
  have hblt : n / 256 % 256 < 256 := Nat.mod_lt _ (by norm_num)
  have hb : n / 256 % 256 * 2 ^ 8 < 2 ^ 16 := by
    have h16 : (2 : Nat) ^ 16 = 65536 := by norm_num
    rw [p8, h16]; omega
  rw [Nat.mul_comm (n / 65536 % 256) (2 ^ 16), ← Nat.mul_add_lt_is_or hb _]
  have hc : n % 256 < 2 ^ 8 := by rw [p8]; omega
  have e2 : 2 ^ 16 * (n / 65536 % 256) + n / 256 % 256 * 2 ^ 8 =
      2 ^ 8 * (2 ^ 8 * (n / 65536 % 256) + n / 256 % 256) := by ring
  rw [e2, ← Nat.mul_add_lt_is_or hc _, p8]
  omega

theorem chunkListOf_length (t : Nat) (body : List Nat) :
    (chunkListOf t body).length = 4 + body.length := by
  simp only [chunkListOf, le24, List.length_cons, List.length_append,
    List.length_nil]
  omega

theorem parse24_chunkListOf (t : Nat) (body L : List Nat)
    (h : body.length < 2 ^ 24) :
    parse24 (chunkListOf t body ++ L) = body.length := by
  have e : chunkListOf t body ++ L = t :: (le24 body.length ++ (body ++ L)) := by
    simp [chunkListOf, List.append_assoc]
  rw [e, parse24_le24 t body.length (body ++ L) h]

theorem getD_zero_chunkListOf (t : Nat) (body L : List Nat) :
    (chunkListOf t body ++ L).getD 0 0 = t := rfl

theorem drop_chunkListOf (t : Nat) (body L : List Nat) :
    (chunkListOf t body ++ L).drop (4 + body.length) = L := by
  have h := List.drop_left (chunkListOf t body) L
  rw [chunkListOf_length] at h
  exact h

/-- With empty output, a `read` call is determined by the chunk loop; two
states whose chunk loops coincide read identically. -/
theorem read_of_chunkLoop_eq (uncompress : Bytes → Except Unit Bytes)
    (fuel1 fuel2 k : Nat) (st1 st1m : SnappyFramedDecoder)
    (hout : st1m.output = st1.output)
    (hemp : st1.output.empty = true)
    (hcl : chunkLoop uncompress fuel1 st1 = chunkLoop uncompress fuel2 st1m) :
    SnappyFramedDecoder.read uncompress fuel1 st1 k =
      SnappyFramedDecoder.read uncompress fuel2 st1m k := by
  rw [SnappyFramedDecoder.read, SnappyFramedDecoder.read, if_pos hemp,
    if_pos (by rw [hout]; exact hemp), hcl]

/-- Decoding a source whose stream starts with a well-formed non-data
chunk (any type byte other than `0x00` and `0x01`) gives the same result
as decoding the stream with that chunk removed. -/
theorem decodeSource_skip (uncompress : Bytes → Except Unit Bytes)
    (hext : ∀ a b : Bytes, a.toList = b.toList → uncompress a = uncompress b)
    (mode : CrcMode) (t : Nat) (body : List Nat) (src1 src2 : Src)
    (hsrc1 : goodSrc src1) (hsrc2 : goodSrc src2)
    (ht0 : t ≠ 0x00) (ht1 : t ≠ 0x01) (hlen : body.length < 2 ^ 24)
    (hflat : flatSrc src1 = chunkListOf t body ++ flatSrc src2) :
    decodeSource uncompress mode src1 = decodeSource uncompress mode src2 := by
  show (read_to_end uncompress (srcSize src1 + 2) (srcSize src1 + 2)
      (SnappyFramedDecoder.new src1 mode) []).1 =
    (read_to_end uncompress (srcSize src2 + 2) (srcSize src2 + 2)
      (SnappyFramedDecoder.new src2 mode) []).1
  set st1 := SnappyFramedDecoder.new src1 mode with hst1
  set st2 := SnappyFramedDecoder.new src2 mode with hst2
  have ha1 : availSt st1 = chunkListOf t body ++ flatSrc src2 := by
    rw [hst1, availSt_new, hflat]
  have ha2 : availSt st2 = flatSrc src2 := by rw [hst2, availSt_new]
  have hp24 : parse24 (availSt st1) = body.length := by
    rw [ha1]; exact parse24_chunkListOf t body _ hlen
  have hS1len : (availSt st1).length = 4 + body.length + (flatSrc src2).length := by
    rw [ha1]
    simp only [List.length_append, chunkListOf_length]
  have hsize1 : srcSize src1 = 4 + body.length + (flatSrc src2).length := by
    rw [← flatSrc_length]
    rw [hflat]
    simp only [List.length_append, chunkListOf_length]
  have hsize2 : srcSize src2 = (flatSrc src2).length := (flatSrc_length src2).symm
  obtain ⟨st1m, hclm, hgm, ham, houtm, hmm⟩ :=
    chunkLoop_skip uncompress (srcSize src1 + 1) st1
      (by rw [hst1]; exact goodState_new src1 mode hsrc1)
      (by rw [hp24, hS1len]
          show 4 + body.length ≤ 4 + body.length + (flatSrc src2).length
          omega)
      (by rw [ha1, getD_zero_chunkListOf]; exact ht0)
      (by rw [ha1, getD_zero_chunkListOf]; exact ht1)
  have ham2 : availSt st1m = flatSrc src2 := by
    rw [ham, hp24, ha1]
    show (chunkListOf t body ++ flatSrc src2).drop (4 + body.length) = flatSrc src2
    exact drop_chunkListOf t body (flatSrc src2)
  have hemp1 : st1.output.empty = true := by rw [hst1]; rfl
  have hread1 : SnappyFramedDecoder.read uncompress (srcSize src1 + 2) st1
      MAX_UNCOMPRESSED_CHUNK =
      SnappyFramedDecoder.read uncompress (srcSize src1 + 1) st1m
        MAX_UNCOMPRESSED_CHUNK :=
    read_of_chunkLoop_eq uncompress (srcSize src1 + 2) (srcSize src1 + 1)
      MAX_UNCOMPRESSED_CHUNK st1 st1m houtm hemp1 hclm
  obtain ⟨res, st1r, st2r, hr1, hr2, hmr1, hmr2, hgr1, hgr2, hokr⟩ :=
    read_agrees uncompress hext MAX_UNCOMPRESSED_CHUNK (srcSize src1 + 1)
      (srcSize src2 + 2) st1m st2
      (by rw [ham2, ha2]) (by rw [hmm, hst1, hst2]; rfl)
      (by rw [houtm, hst1]; exact unread_new_out src1 mode)
      (by rw [hst2]; exact unread_new_out src2 mode)
      hgm (by rw [hst2]; exact goodState_new src2 mode hsrc2) (le_refl _)
      (by rw [ham2, hsize1]; omega) (by rw [ha2, hsize2]; omega)
  have hr1c : SnappyFramedDecoder.read uncompress (srcSize src1 + 1 + 1) st1
      MAX_UNCOMPRESSED_CHUNK = (res, st1r) := hread1.trans hr1
  have hr2c : SnappyFramedDecoder.read uncompress (srcSize src2 + 1 + 1) st2
      MAX_UNCOMPRESSED_CHUNK = (res, st2r) := hr2
  rw [show srcSize src1 + 2 = srcSize src1 + 1 + 1 from rfl,
    show srcSize src2 + 2 = srcSize src2 + 1 + 1 from rfl]
  rcases res with bs | e | p
  · rcases bs with _ | ⟨b, bs⟩
    · simp only [read_to_end, hr1c, hr2c]
    · obtain ⟨haeqr, hrestr⟩ := hokr (b :: bs) rfl
      obtain ⟨ho1r, ho2r, hdecr⟩ := hrestr (by simp)
      have hlt1 : (availSt st1r).length + 8 ≤ (flatSrc src2).length := by
        rw [← ham2]; exact hdecr
      simp only [read_to_end, hr1c, hr2c]
      apply read_to_end_agrees uncompress hext (availSt st1r).length
        (srcSize src1 + 1) (srcSize src2 + 1) (srcSize src1 + 1 + 1)
        (srcSize src2 + 1 + 1) st1r st2r ([] ++ b :: bs) (le_refl _) haeqr
        (by rw [hmr1, hmr2, hmm, hst1, hst2]; rfl) ho1r ho2r hgr1 hgr2
      · omega
      · rw [← haeqr]; omega
      · omega
      · rw [← haeqr]; omega
  · simp only [read_to_end, hr1c, hr2c]
  · simp only [read_to_end, hr1c, hr2c]

/-- C10: the decoder never inspects the body of a stream-identifier
(type `0xFF`) chunk: for every stream beginning with a well-formed
identifier chunk, removing that chunk — the decoder does not require a
stream to begin with one — or replacing its body with any other bytes
(keeping the chunk well-formed) yields the same decoded output. -/
theorem C10_identifier_chunk_never_inspected
    (uncompress : Bytes → Except Unit Bytes)
    (hext : ∀ a b : Bytes, a.toList = b.toList → uncompress a = uncompress b)
    (mode : CrcMode) (body body2 : List Nat) (src1 src2 src3 : Src)
    (hsrc1 : goodSrc src1) (hsrc2 : goodSrc src2) (hsrc3 : goodSrc src3)
    (hlen : body.length < 2 ^ 24) (hlen2 : body2.length < 2 ^ 24)
    (hflat : flatSrc src1 = chunkListOf 0xFF body ++ flatSrc src2)
    (hflat3 : flatSrc src3 = chunkListOf 0xFF body2 ++ flatSrc src2) :
    decodeSource uncompress mode src1 = decodeSource uncompress mode src2 ∧
    decodeSource uncompress mode src1 = decodeSource uncompress mode src3 := by
  have h1 := decodeSource_skip uncompress hext mode 0xFF body src1 src2
    hsrc1 hsrc2 (by omega) (by omega) hlen hflat
  have h3 := decodeSource_skip uncompress hext mode 0xFF body2 src3 src2
    hsrc3 hsrc2 (by omega) (by omega) hlen2 hflat3
  exact ⟨h1, h1.trans h3.symm⟩

/-- A stream consisting of exactly the Snappy stream identifier decodes
to the same (empty) output as the empty stream, and as a stream whose
identifier body is replaced by six zero bytes. -/
theorem C10_witness :
    goodSrc [Bytes.ofList STREAM_IDENTIFIER] ∧
    goodSrc ([] : Src) ∧
    goodSrc [Bytes.ofList (chunkListOf 0xFF [0, 0, 0, 0, 0, 0])] ∧
    flatSrc [Bytes.ofList STREAM_IDENTIFIER] =
      chunkListOf 0xFF [0x73, 0x4E, 0x61, 0x50, 0x70, 0x59] ++
        flatSrc ([] : Src) ∧
    flatSrc [Bytes.ofList (chunkListOf 0xFF [0, 0, 0, 0, 0, 0])] =
      chunkListOf 0xFF [0, 0, 0, 0, 0, 0] ++ flatSrc ([] : Src) ∧
    (decodeSource (fun b => .ok (Bytes.ofList b.toList)) CrcMode.Verify
        [Bytes.ofList STREAM_IDENTIFIER] =
      decodeSource (fun b => .ok (Bytes.ofList b.toList)) CrcMode.Verify
        ([] : Src) ∧
     decodeSource (fun b => .ok (Bytes.ofList b.toList)) CrcMode.Verify
        [Bytes.ofList STREAM_IDENTIFIER] =
      decodeSource (fun b => .ok (Bytes.ofList b.toList)) CrcMode.Verify
        [Bytes.ofList (chunkListOf 0xFF [0, 0, 0, 0, 0, 0])]) :=
  ⟨by unfold goodSrc; decide, by unfold goodSrc; decide,
   by unfold goodSrc; decide, by decide, by decide,
   C10_identifier_chunk_never_inspected (fun b => .ok (Bytes.ofList b.toList))
     (fun a b h => by simp only [h]) CrcMode.Verify
     [0x73, 0x4E, 0x61, 0x50, 0x70, 0x59] [0, 0, 0, 0, 0, 0]
     [Bytes.ofList STREAM_IDENTIFIER] ([] : Src)
     [Bytes.ofList (chunkListOf 0xFF [0, 0, 0, 0, 0, 0])]
     (by unfold goodSrc; decide) (by unfold goodSrc; decide)
     (by unfold goodSrc; decide) (by decide) (by decide) (by decide)
     (by decide)⟩

/-- C4 (amended): for every positive requested byte count `n`, after
`ensure_buffered` fills the buffer from the source: if no bytes at all
were reachable it reports clean end-of-stream (the non-error `None`); if
more than zero but fewer than `n` bytes were reachable it reports the
truncated-chunk (incomplete chunk) error; otherwise it consumes and
returns exactly the first `n` reachable bytes.  (For `n = 0` the code
instead returns `Ok(Some(&[]))` even when nothing is buffered.) -/
theorem C4_amended_ensure_buffered_decision (b : Buffer) (n : Nat) (src : Src)
    (hinv : b.inv) (hsrc : goodSrc src) (hn : 0 < n) :
    (availOf b src = [] →
      ∃ b2 src2, ensure_buffered b n src = (.ok none, b2, src2)) ∧
    (0 < (availOf b src).length → (availOf b src).length < n →
      ∃ b2 src2,
        ensure_buffered b n src = (.ioError .incompleteChunk, b2, src2)) ∧
    (n ≤ (availOf b src).length →
      ∃ data b2 src2,
        ensure_buffered b n src = (.ok (some data), b2, src2) ∧
        data.size = n ∧ data.toList = (availOf b src).take n) := by
  refine ⟨?_, ?_, ?_⟩
  · intro h0
    obtain ⟨b2, src2, h, _, _, _⟩ := ensure_spec_eof b n src hinv hsrc h0 hn
    exact ⟨b2, src2, h⟩
  · intro h1 h2
    obtain ⟨b2, src2, h, _, _, _⟩ := ensure_spec_short b n src hinv hsrc h1 h2
    exact ⟨b2, src2, h⟩
  · intro hle
    obtain ⟨d, b2, src2, h, hsz, htl, _, _, _⟩ :=
      ensure_spec_enough b n src hinv hsrc hle
    exact ⟨d, b2, src2, h, hsz, htl⟩

/-- A fresh buffer asked for 4 bytes: an exhausted source gives the clean
`None`; a source holding one byte gives the incomplete-chunk error; a
source holding exactly 4 bytes gives those 4 bytes. -/
theorem C4_amended_witness :
    (∃ b2 src2, ensure_buffered (Buffer.new 1024) 4 [] =
      (.ok none, b2, src2)) ∧
    (∃ b2 src2, ensure_buffered (Buffer.new 1024) 4 [Bytes.ofList [7]] =
      (.ioError .incompleteChunk, b2, src2)) ∧
    (∃ data b2 src2,
      ensure_buffered (Buffer.new 1024) 4 [Bytes.ofList [7, 8, 9, 10]] =
        (.ok (some data), b2, src2) ∧
      data.size = 4 ∧
      data.toList =
        (availOf (Buffer.new 1024) [Bytes.ofList [7, 8, 9, 10]]).take 4) :=
  ⟨(C4_amended_ensure_buffered_decision (Buffer.new 1024) 4 []
      (Buffer.inv_new _) (by unfold goodSrc; decide) (by decide)).1 (by decide),
   (C4_amended_ensure_buffered_decision (Buffer.new 1024) 4 [Bytes.ofList [7]]
      (Buffer.inv_new _) (by unfold goodSrc; decide) (by decide)).2.1
      (by decide) (by decide),
   (C4_amended_ensure_buffered_decision (Buffer.new 1024) 4
      [Bytes.ofList [7, 8, 9, 10]]
      (Buffer.inv_new _) (by unfold goodSrc; decide) (by decide)).2.2
      (by decide)⟩

/-- C5 (amended): whenever a 4-byte chunk header is successfully read but
the reachable bytes end before the full declared body: if the source ends
cleanly right after the header, `next_chunk` panics
(`.expect("Snappy chunk header with missing data")`) rather than
returning an error result; if the body is delivered only partially it
surfaces the incomplete-chunk error; in neither case does it return a
clean end-of-stream result. -/
theorem C5_amended_truncation_never_clean (b : Buffer) (src : Src)
    (hinv : b.inv) (hsrc : goodSrc src)
    (hhdr : HEADER_SIZE ≤ (availOf b src).length)
    (hlen : (availOf b src).length < HEADER_SIZE + parse24 (availOf b src)) :
    ((availOf b src).length = HEADER_SIZE →
      ∃ b2 src2,
        next_chunk b src = (.panicked .missingChunkData, b2, src2)) ∧
    (HEADER_SIZE < (availOf b src).length →
      ∃ b2 src2,
        next_chunk b src = (.ioError .incompleteChunk, b2, src2)) ∧
    (next_chunk b src).1 ≠ .ok none := by
  refine ⟨?_, ?_, ?_⟩
  · intro h4
    obtain ⟨b2, src2, h, _, _⟩ :=
      next_chunk_missing_body b src hinv hsrc h4 (by omega)
    exact ⟨b2, src2, h⟩
  · intro h4
    obtain ⟨b2, src2, h, _, _⟩ :=
      next_chunk_truncated_body b src hinv hsrc h4 hlen
    exact ⟨b2, src2, h⟩
  · rcases Nat.lt_or_ge HEADER_SIZE (availOf b src).length with h4 | h4
    · obtain ⟨b3, src3, h, _, _⟩ :=
        next_chunk_truncated_body b src hinv hsrc h4 hlen
      rw [h]
      simp
    · have h4e : (availOf b src).length = HEADER_SIZE := by omega
      obtain ⟨b3, src3, h, _, _⟩ :=
        next_chunk_missing_body b src hinv hsrc h4e (by omega)
      rw [h]
      simp

/-- A header `[0x01, 5, 0, 0]` promising a 5-byte body: with the source
ending cleanly after the header `next_chunk` panics, with one body byte
delivered it reports the incomplete-chunk error, and neither run is a
clean end of stream. -/
theorem C5_amended_witness :
    (∃ b2 src2, next_chunk (Buffer.new (1024 * 1024))
        [Bytes.ofList [0x01, 5, 0, 0]] =
      (.panicked .missingChunkData, b2, src2)) ∧
    (∃ b2 src2, next_chunk (Buffer.new (1024 * 1024))
        [Bytes.ofList [0x01, 5, 0, 0, 9]] =
      (.ioError .incompleteChunk, b2, src2)) ∧
    (next_chunk (Buffer.new (1024 * 1024))
        [Bytes.ofList [0x01, 5, 0, 0]]).1 ≠ .ok none :=
  ⟨(C5_amended_truncation_never_clean (Buffer.new (1024 * 1024))
      [Bytes.ofList [0x01, 5, 0, 0]] (Buffer.inv_new _)
      (by unfold goodSrc; decide) (by decide) (by decide)).1 (by decide),
   (C5_amended_truncation_never_clean (Buffer.new (1024 * 1024))
      [Bytes.ofList [0x01, 5, 0, 0, 9]] (Buffer.inv_new _)
      (by unfold goodSrc; decide) (by decide) (by decide)).2.1 (by decide),
   (C5_amended_truncation_never_clean (Buffer.new (1024 * 1024))
      [Bytes.ofList [0x01, 5, 0, 0]] (Buffer.inv_new _)
      (by unfold goodSrc; decide) (by decide) (by decide)).2.2⟩

theorem shr_and (a b c : Nat) : (a &&& b) >>> c = (a >>> c) &&& (b >>> c) := by
  apply Nat.eq_of_testBit_eq
  intro i
  simp [Nat.testBit_shiftRight, Nat.testBit_and]

theorem andff (n : Nat) : n &&& 0xFF = n % 256 := by
  rw [show (0xFF : Nat) = 2 ^ 8 - 1 from by norm_num,
    Nat.and_pow_two_sub_one_eq_mod]

theorem andshr8 (n : Nat) : (n &&& 0xFF00) >>> 8 = n / 256 % 256 := by
  rw [shr_and]
  have e : (0xFF00 : Nat) >>> 8 = 0xFF := by decide
  rw [e, show (0xFF : Nat) = 2 ^ 8 - 1 from by norm_num,
    Nat.and_pow_two_sub_one_eq_mod, Nat.shiftRight_eq_div_pow]

theorem andshr16 (n : Nat) : (n &&& 0xFF0000) >>> 16 = n / 65536 % 256 := by
  rw [shr_and]
  have e : (0xFF0000 : Nat) >>> 16 = 0xFF := by decide
  rw [e, show (0xFF : Nat) = 2 ^ 8 - 1 from by norm_num,
    Nat.and_pow_two_sub_one_eq_mod, Nat.shiftRight_eq_div_pow]

theorem andshr24 (n : Nat) : (n &&& 0xFF000000) >>> 24 = n / 16777216 % 256 := by
  rw [shr_and]
  have e : (0xFF000000 : Nat) >>> 24 = 0xFF := by decide
  rw [e, show (0xFF : Nat) = 2 ^ 8 - 1 from by norm_num,
    Nat.and_pow_two_sub_one_eq_mod, Nat.shiftRight_eq_div_pow]

/-- Byte for byte, the frame the encoder emits is the frame the
specification describes. -/
theorem frameFor_toList (compress : Bytes → Bytes) (d : Bytes) :
    (frameFor compress d).toList = specFrameFor compress d := by
  unfold frameFor specFrameFor
  simp only [Bytes.toList_append, Bytes.toList_ofList, le24, le32,
    List.cons_append, List.append_assoc, List.nil_append]
  simp only [andff, andshr8, andshr16, andshr24]

theorem splitChunks_mem (fuel : Nat) : ∀ (buf b : Bytes),
    b ∈ splitChunks fuel buf →
    0 < b.size ∧ b.size ≤ MAX_UNCOMPRESSED_CHUNK := by
  induction fuel with
  | zero => intro buf b h; simp [splitChunks] at h
  | succ fuel ih =>
    intro buf b h
    rw [splitChunks] at h
    by_cases h0 : buf.size = 0
    · rw [if_pos h0] at h; simp at h
    · rw [if_neg h0] at h
      rcases List.mem_cons.mp h with he | hm
      · subst he
        have h1 : 0 < buf.size := Nat.pos_of_ne_zero h0
        constructor
        · show 0 < min 65536 buf.size
          omega
        · show min 65536 buf.size ≤ 65536
          omega
      · exact ih _ _ hm

theorem splitChunks_flatten : ∀ (fuel : Nat) (buf : Bytes),
    buf.size ≤ fuel →
    ((splitChunks fuel buf).map Bytes.toList).flatten = buf.toList := by
  intro fuel
  induction fuel with
  | zero =>
    intro buf h
    have h0 : buf.size = 0 := by omega
    have ht : buf.toList = [] := by
      apply List.eq_nil_of_length_eq_zero
      rw [Bytes.length_toList, h0]
    rw [ht]
    rfl
  | succ fuel ih =>
    intro buf h
    rw [splitChunks]
    by_cases h0 : buf.size = 0
    · rw [if_pos h0]
      have ht : buf.toList = [] := by
        apply List.eq_nil_of_length_eq_zero
        rw [Bytes.length_toList, h0]
      rw [ht]
      rfl
    · rw [if_neg h0]
      simp only [List.map_cons, List.flatten_cons]
      rw [ih (buf.drop MAX_UNCOMPRESSED_CHUNK) ?_]
      · rw [Bytes.toList_take, Bytes.toList_drop, List.take_append_drop]
      · have h1 : 0 < buf.size := Nat.pos_of_ne_zero h0
        show buf.size - 65536 ≤ fuel
        omega

theorem joinBytes_toList (l : List Bytes) :
    (joinBytes l).toList = (l.map Bytes.toList).flatten := by
  induction l with
  | nil => rfl
  | cons x xs ih =>
    show (x.append (joinBytes xs)).toList = _
    simp only [List.map_cons, List.flatten_cons]
    rw [Bytes.toList_append, ih]

theorem write_toList (compress : Bytes → Bytes) (buf : Bytes) :
    (SnappyFramedEncoder.write compress buf).1.toList =
      ((splitChunks (buf.size + 1) buf).map
        (fun b => (frameFor compress b).toList)).flatten := by
  show (joinBytes ((splitChunks (buf.size + 1) buf).map
    (frameFor compress))).toList = _
  rw [joinBytes_toList, List.map_map]
  rfl

/-- C2 (amended): for every input `buf`, the encoder's `write` splits
`buf` into consecutive nonempty blocks of at most 65 536 bytes covering
`buf`, emits for each block in order exactly the specified frame — type
byte `0x00`, 24-bit little-endian length field, 4-byte little-endian
masked CRC of the uncompressed block, then the compressed bytes — and
returns the full length of `buf`.  Provided the compressed length of a
block plus 4 fits in 24 bits, the length field equals 4 plus the
compressed length; without that bound the field holds the value only
modulo `2^24`. -/
theorem C2_amended_encoder_frame_layout (compress : Bytes → Bytes)
    (buf : Bytes)
    (hsmall : ∀ b : Bytes, b.size ≤ MAX_UNCOMPRESSED_CHUNK →
      CRC_SIZE + (compress b).size < 2 ^ 24) :
    (SnappyFramedEncoder.write compress buf).2 = buf.size ∧
    (∀ b ∈ splitChunks (buf.size + 1) buf,
      0 < b.size ∧ b.size ≤ MAX_UNCOMPRESSED_CHUNK) ∧
    ((splitChunks (buf.size + 1) buf).map Bytes.toList).flatten =
      buf.toList ∧
    (SnappyFramedEncoder.write compress buf).1.toList =
      ((splitChunks (buf.size + 1) buf).map (specFrameFor compress)).flatten ∧
    (∀ b ∈ splitChunks (buf.size + 1) buf,
      (specFrameFor compress b).getD 0 0 = 0x00 ∧
      parse24 (specFrameFor compress b) = CRC_SIZE + (compress b).size) := by
  refine ⟨rfl, fun b hb => splitChunks_mem _ _ b hb,
    splitChunks_flatten _ buf (by omega), ?_, ?_⟩
  · rw [write_toList]
    congr 1
    exact List.map_congr_left fun b hb => frameFor_toList compress b
  · intro b hb
    refine ⟨rfl, ?_⟩
    exact parse24_le24 0x00 _ _ (hsmall b (splitChunks_mem _ _ b hb).2)

/-- With the identity compressor on the 3-byte input `[1, 2, 3]`: one
block, one frame of the specified shape, and 3 bytes reported written. -/
theorem C2_amended_witness :
    (SnappyFramedEncoder.write (fun b => b) (Bytes.ofList [1, 2, 3])).2 =
      (Bytes.ofList [1, 2, 3]).size ∧
    (∀ b ∈ splitChunks ((Bytes.ofList [1, 2, 3]).size + 1)
        (Bytes.ofList [1, 2, 3]),
      0 < b.size ∧ b.size ≤ MAX_UNCOMPRESSED_CHUNK) ∧
    ((splitChunks ((Bytes.ofList [1, 2, 3]).size + 1)
        (Bytes.ofList [1, 2, 3])).map Bytes.toList).flatten =
      (Bytes.ofList [1, 2, 3]).toList ∧
    (SnappyFramedEncoder.write (fun b => b) (Bytes.ofList [1, 2, 3])).1.toList =
      ((splitChunks ((Bytes.ofList [1, 2, 3]).size + 1)
        (Bytes.ofList [1, 2, 3])).map (specFrameFor (fun b => b))).flatten ∧
    (∀ b ∈ splitChunks ((Bytes.ofList [1, 2, 3]).size + 1)
        (Bytes.ofList [1, 2, 3]),
      (specFrameFor (fun b => b) b).getD 0 0 = 0x00 ∧
      parse24 (specFrameFor (fun b => b) b) =
        CRC_SIZE + ((fun b => b) b).size) :=
  C2_amended_encoder_frame_layout (fun b => b) (Bytes.ofList [1, 2, 3])
    (fun b hb => by
      have h2 : b.size ≤ 65536 := hb
      show 4 + b.size < 16777216
      omega)

theorem parse32_le32 (n : Nat) (rest : List Nat) (h : n < 2 ^ 32) :
    parse32 (le32 n ++ rest) = n := by
  have e : le32 n ++ rest =
      n % 256 :: n / 256 % 256 :: n / 65536 % 256 :: n / 16777216 % 256 ::
        rest := by
    simp [le32]
  rw [e, parse32]
  simp only [List.getD_cons_succ, List.getD_cons_zero]
  rw [Nat.shiftLeft_eq, Nat.shiftLeft_eq, Nat.shiftLeft_eq]
  have d1 : n % 256 < 256 := Nat.mod_lt n (by norm_num)
  have d2 : n / 256 % 256 < 256 := Nat.mod_lt _ (by norm_num)
  have d3 : n / 65536 % 256 < 256 := Nat.mod_lt _ (by norm_num)
  have h1 : n % 256 < 2 ^ 8 := d1
  have h2 : 2 ^ 8 * (n / 256 % 256) + n % 256 < 2 ^ 16 := by
    show 256 * (n / 256 % 256) + n % 256 < 65536
    omega
  have h3 : 2 ^ 16 * (n / 65536 % 256) + (2 ^ 8 * (n / 256 % 256) + n % 256) <
      2 ^ 24 := by
    show 65536 * (n / 65536 % 256) + (256 * (n / 256 % 256) + n % 256) <
      16777216
    omega
  rw [Nat.lor_comm (n % 256) _, Nat.mul_comm (n / 256 % 256) (2 ^ 8),
    ← Nat.mul_add_lt_is_or h1 _]
  rw [Nat.lor_comm _ (n / 65536 % 256 * 2 ^ 16),
    Nat.mul_comm (n / 65536 % 256) (2 ^ 16), ← Nat.mul_add_lt_is_or h2 _]
  rw [Nat.lor_comm _ (n / 16777216 % 256 * 2 ^ 24),
    Nat.mul_comm (n / 16777216 % 256) (2 ^ 24), ← Nat.mul_add_lt_is_or h3 _]
  have h32 : n < 4294967296 := h
  show 16777216 * (n / 16777216 % 256) +
    (65536 * (n / 65536 % 256) + (256 * (n / 256 % 256) + n % 256)) = n
  omega

theorem masked_crc_lt (b : Bytes) : masked_crc b < 2 ^ 32 := by
  unfold masked_crc mask
  exact Nat.mod_lt _ (by norm_num)

theorem le24_length (n : Nat) : (le24 n).length = 3 := by simp [le24]

theorem le32_length (n : Nat) : (le32 n).length = 4 := by simp [le32]

theorem drop4_le32 (m : Nat) (K : List Nat) : (le32 m ++ K).drop 4 = K := by
  have h := List.drop_left (le32 m) K
  rw [le32_length] at h
  exact h

theorem drop4_chunkListOf (t : Nat) (body L : List Nat) :
    (chunkListOf t body ++ L).drop 4 = body ++ L := by
  have e : chunkListOf t body ++ L =
      (t :: le24 body.length) ++ (body ++ L) := by
    simp [chunkListOf, List.append_assoc]
  rw [e]
  have h := List.drop_left (t :: le24 body.length) (body ++ L)
  have hl : (t :: le24 body.length).length = 4 := by
    simp [le24_length]
  rw [hl] at h
  exact h

/-- The frame the spec describes for a block is the well-formed chunk of
type `0x00` whose body is the CRC field followed by the compressed
bytes. -/
theorem specFrameFor_eq_chunkListOf (compress : Bytes → Bytes)
    (block : Bytes) :
    specFrameFor compress block =
      chunkListOf 0x00
        (le32 (masked_crc block) ++ (compress block).toList) := by
  unfold specFrameFor chunkListOf
  have hl : (le32 (masked_crc block) ++ (compress block).toList).length =
      CRC_SIZE + (compress block).size := by
    simp only [List.length_append, le32_length, Bytes.length_toList]
    rfl
  rw [hl]

/-- The chunk loop at a clean end of the stream: one iteration, the
`ok false` outcome, the output untouched. -/
theorem chunkLoop_eof (uncompress : Bytes → Except Unit Bytes) (fuel : Nat)
    (st : SnappyFramedDecoder) (hgood : goodState st)
    (ha : availSt st = []) :
    ∃ st1, chunkLoop uncompress (fuel + 1) st = (.ok false, st1) ∧
      goodState st1 ∧ st1.output = st.output ∧ st1.mode = st.mode := by
  obtain ⟨hin, hout, hsrc, hcap⟩ := hgood
  obtain ⟨b2, src2, hnc, ha2, hi2, hs2⟩ :=
    next_chunk_eof st.input st.source hin hsrc ha
  refine ⟨{ st with input := b2, source := src2 }, ?_,
    ⟨hi2, hout, hs2, hcap⟩, rfl, rfl⟩
  simp only [chunkLoop, hnc]

/-- A `read` call at a clean end of the stream returns `Ok(0)`. -/
theorem read_eof (uncompress : Bytes → Except Unit Bytes) (fuel k : Nat)
    (st : SnappyFramedDecoder) (hgood : goodState st)
    (hemp : st.output.empty = true) (ha : availSt st = []) :
    ∃ st1, SnappyFramedDecoder.read uncompress (fuel + 1) st k =
      (.ok [], st1) := by
  obtain ⟨st1, hcl, _, _, _⟩ := chunkLoop_eof uncompress fuel st hgood ha
  exact ⟨st1, by rw [SnappyFramedDecoder.read, if_pos hemp, hcl]⟩

/-- A `read` call whose chunk loop filled the output drains the whole
output into the caller's buffer. -/
theorem read_drain (uncompress : Bytes → Except Unit Bytes) (fuel k : Nat)
    (st st1 : SnappyFramedDecoder) (hemp : st.output.empty = true)
    (hcl : chunkLoop uncompress fuel st = (.ok true, st1))
    (hg1 : goodState st1) (hk : MAX_UNCOMPRESSED_CHUNK ≤ k) :
    ∃ st2, SnappyFramedDecoder.read uncompress fuel st k =
        (.ok st1.output.unread, st2) ∧
      goodState st2 ∧ st2.output.unread = [] ∧
      availSt st2 = availSt st1 ∧ st2.mode = st1.mode := by
  obtain ⟨hg11, hg12, hg13, hg14⟩ := hg1
  obtain ⟨hq1, hq2, hq3, hq4, hq5⟩ := Buffer.drain st1.output k hg12 hg14 hk
  refine ⟨{ st1 with output :=
      (st1.output.copy_out_and_consume (min st1.output.buffered k)).2 },
    ?_, ⟨hg11, hq4, hg13, by rw [hq5, hg14]⟩, hq3, rfl, rfl⟩
  rw [SnappyFramedDecoder.read, if_pos hemp, hcl]
  simp only [hq2]

/-- Decoding a stream that consists of specified frames: `read_to_end`
returns all the blocks' bytes in order. -/
theorem read_to_end_frames (uncompress : Bytes → Except Unit Bytes)
    (compress : Bytes → Bytes)
    (hext : ∀ a b : Bytes, a.toList = b.toList → uncompress a = uncompress b)
    (hleft : ∀ b : Bytes, b.size ≤ MAX_UNCOMPRESSED_CHUNK →
      ∃ d, uncompress (compress b) = .ok d ∧ d.toList = b.toList)
    (hbound : ∀ b : Bytes, b.size ≤ MAX_UNCOMPRESSED_CHUNK →
      CRC_SIZE + (compress b).size < 2 ^ 24) :
    ∀ (blocks : List Bytes) (fuelO fuelI : Nat) (st : SnappyFramedDecoder)
      (acc : List Nat),
    goodState st → st.output.unread = [] →
    availSt st = (blocks.map (specFrameFor compress)).flatten →
    (∀ b ∈ blocks, 0 < b.size ∧ b.size ≤ MAX_UNCOMPRESSED_CHUNK) →
    (availSt st).length < fuelI → blocks.length < fuelO →
    (read_to_end uncompress fuelO fuelI st acc).1 =
      .ok (acc ++ (blocks.map Bytes.toList).flatten) := by
  intro blocks
  induction blocks with
  | nil =>
    intro fuelO fuelI st acc hg hout havail hblocks hfI hfO
    have hemp : st.output.empty = true := by
      have h0 : st.output.buffered = 0 := by
        have := congrArg List.length hout
        simpa using this
      simp [Buffer.empty, h0]
    have ha : availSt st = [] := by simpa using havail
    match fuelO, hfO with
    | fuelO + 1, hfO =>
    match fuelI, hfI with
    | fuelI + 1, hfI =>
    obtain ⟨st1, hr⟩ :=
      read_eof uncompress fuelI MAX_UNCOMPRESSED_CHUNK st hg hemp ha
    simp only [read_to_end, hr]
    simp
  | cons block blocks ih =>
    intro fuelO fuelI st acc hg hout havail hblocks hfI hfO
    match fuelO, hfO with
    | fuelO + 1, hfO =>
    match fuelI, hfI with
    | fuelI + 1, hfI =>
    obtain ⟨hb1, hb2⟩ := hblocks block (List.mem_cons_self block blocks)
    have hsm : CRC_SIZE + (compress block).size < 2 ^ 24 := hbound block hb2
    obtain ⟨d, hd, hdtl⟩ := hleft block hb2
    set K := le32 (masked_crc block) ++ (compress block).toList with hK
    have hKlen : K.length < 2 ^ 24 := by
      rw [hK]
      simp only [List.length_append, le32_length, Bytes.length_toList]
      exact hsm
    have havail2 : availSt st =
        chunkListOf 0x00 K ++ (blocks.map (specFrameFor compress)).flatten := by
      rw [havail]
      simp only [List.map_cons, List.flatten_cons]
      rw [specFrameFor_eq_chunkListOf, hK]
    have hp : parse24 (availSt st) = K.length := by
      rw [havail2]
      exact parse24_chunkListOf 0x00 K _ hKlen
    have hlenav : (availSt st).length =
        4 + K.length + ((blocks.map (specFrameFor compress)).flatten).length := by
      rw [havail2]
      simp only [List.length_append, chunkListOf_length]
    have hty : (availSt st).getD 0 0 = 0x00 := by
      rw [havail2]
      exact getD_zero_chunkListOf 0x00 K _
    have hbody : ((availSt st).drop HEADER_SIZE).take (parse24 (availSt st)) =
        K := by
      rw [hp, havail2]
      show ((chunkListOf 0x00 K ++ _).drop 4).take K.length = K
      rw [drop4_chunkListOf]
      exact List.take_left K _
    have hdsz : d.size ≤ MAX_UNCOMPRESSED_CHUNK := by
      have h1 : d.size = block.size := by
        have := congrArg List.length hdtl
        simpa using this
      omega
    obtain ⟨st1, hcl, hg1, ha1, hout1, hbuf1, hm1⟩ :=
      chunkLoop_frame0 uncompress fuelI st d hg
        (by rw [hp, hlenav]
            show 4 + K.length ≤ 4 + K.length + _
            omega)
        hty
        (by rw [hp]
            show 4 ≤ K.length
            rw [hK]
            simp only [List.length_append, le32_length]
            omega)
        (by intro c hc
            rw [hbody] at hc
            have hc2 : c.toList = (compress block).toList := by
              rw [hc, hK]
              exact drop4_le32 _ _
            exact (hext c (compress block) hc2).trans hd)
        hdsz
        (fun _ => by
          rw [hbody, hK, parse32_le32 _ _ (masked_crc_lt block)]
          exact (masked_crc_ext hdtl).symm)
    have hemp : st.output.empty = true := by
      have h0 : st.output.buffered = 0 := by
        have := congrArg List.length hout
        simpa using this
      simp [Buffer.empty, h0]
    obtain ⟨st2, hread, hg2, hout2, ha2, hm2⟩ :=
      read_drain uncompress (fuelI + 1) MAX_UNCOMPRESSED_CHUNK st st1 hemp hcl
        hg1 (le_refl _)
    rw [hout1, hdtl] at hread
    have hA : availSt st2 = (blocks.map (specFrameFor compress)).flatten := by
      rw [ha2, ha1, hp, havail2]
      show (chunkListOf 0x00 K ++ _).drop (4 + K.length) = _
      exact drop_chunkListOf 0x00 K _
    have hB : ∀ b ∈ blocks, 0 < b.size ∧ b.size ≤ MAX_UNCOMPRESSED_CHUNK :=
      fun b hbm => hblocks b (List.mem_cons_of_mem _ hbm)
    have hC : (availSt st2).length < fuelI + 1 := by
      have hle : (availSt st2).length ≤ (availSt st).length := by
        rw [ha2, ha1, List.length_drop]
        omega
      omega
    have hD : blocks.length < fuelO := by
      simp only [List.length_cons] at hfO
      omega
    rcases he : block.toList with _ | ⟨x, xs⟩
    · exfalso
      have := congrArg List.length he
      simp at this
      omega
    · rw [he] at hread
      simp only [read_to_end, hread]
      rw [ih fuelO (fuelI + 1) st2 (acc ++ x :: xs) hg2 hout2 hA hB hC hD]
      simp only [List.map_cons, List.flatten_cons, he, List.append_assoc]

theorem frames_length_ge (compress : Bytes → Bytes) :
    ∀ blocks : List Bytes,
    blocks.length ≤ ((blocks.map (specFrameFor compress)).flatten).length := by
  intro blocks
  induction blocks with
  | nil => simp
  | cons b bs ih =>
    simp only [List.map_cons, List.flatten_cons, List.length_append,
      List.length_cons]
    have hl : 1 ≤ (specFrameFor compress b).length := by
      rw [specFrameFor_eq_chunkListOf, chunkListOf_length]
      omega
    omega

/-- Decoding a source that delivers exactly the specified frames for a
list of blocks yields all the blocks' bytes. -/
theorem decodeSource_frames (uncompress : Bytes → Except Unit Bytes)
    (compress : Bytes → Bytes)
    (hext : ∀ a b : Bytes, a.toList = b.toList → uncompress a = uncompress b)
    (hleft : ∀ b : Bytes, b.size ≤ MAX_UNCOMPRESSED_CHUNK →
      ∃ d, uncompress (compress b) = .ok d ∧ d.toList = b.toList)
    (hbound : ∀ b : Bytes, b.size ≤ MAX_UNCOMPRESSED_CHUNK →
      CRC_SIZE + (compress b).size < 2 ^ 24)
    (mode : CrcMode) (blocks : List Bytes) (src : Src)
    (hgs : goodSrc src)
    (hflat : flatSrc src = (blocks.map (specFrameFor compress)).flatten)
    (hblocks : ∀ b ∈ blocks, 0 < b.size ∧ b.size ≤ MAX_UNCOMPRESSED_CHUNK) :
    decodeSource uncompress mode src =
      .ok ((blocks.map Bytes.toList).flatten) := by
  show (read_to_end uncompress (srcSize src + 2) (srcSize src + 2)
      (SnappyFramedDecoder.new src mode) []).1 = _
  have hsrcsz : srcSize src = (flatSrc src).length := (flatSrc_length src).symm
  rw [read_to_end_frames uncompress compress hext hleft hbound blocks
    (srcSize src + 2) (srcSize src + 2) (SnappyFramedDecoder.new src mode) []
    (goodState_new src mode hgs) (unread_new_out src mode)
    (by rw [availSt_new, hflat])
    hblocks
    (by rw [availSt_new, hsrcsz]; omega)
    (by have h1 := frames_length_ge compress blocks
        rw [← hflat] at h1
        rw [hsrcsz]
        omega)]
  rw [List.nil_append]

/-- C1 (amended): for every byte sequence `S`, decoding the stream
produced by encoding `S` yields exactly `S`, under the hypotheses that
the external decompressor depends only on the bytes of its input, that it
is a left inverse of the external compressor on blocks of at most 65 536
bytes, and that the compressed form of every such block leaves `4 +
compressed length` within the 24-bit length field.  (Without the last
bound the claim fails: an adversarial compressor that inflates a block
beyond `2^24 - 4` bytes makes the emitted length field wrap, and decoding
the encoded stream then errs instead of returning `S`.) -/
theorem C1_amended_roundtrip (compress : Bytes → Bytes)
    (uncompress : Bytes → Except Unit Bytes)
    (hext : ∀ a b : Bytes, a.toList = b.toList → uncompress a = uncompress b)
    (hleft : ∀ b : Bytes, b.size ≤ MAX_UNCOMPRESSED_CHUNK →
      ∃ d, uncompress (compress b) = .ok d ∧ d.toList = b.toList)
    (hbound : ∀ b : Bytes, b.size ≤ MAX_UNCOMPRESSED_CHUNK →
      CRC_SIZE + (compress b).size < 2 ^ 24)
    (S : Bytes) :
    decode uncompress CrcMode.Verify (encode compress S) = .ok S.toList := by
  show decodeSource uncompress CrcMode.Verify [encode compress S] =
    .ok S.toList
  have hmem : ∀ b ∈ splitChunks (S.size + 1) S,
      0 < b.size ∧ b.size ≤ MAX_UNCOMPRESSED_CHUNK :=
    fun b hb => splitChunks_mem _ _ b hb
  have hflat2 : flatSrc ((splitChunks (S.size + 1) S).map
        (fun b => Bytes.ofList (specFrameFor compress b))) =
      ((splitChunks (S.size + 1) S).map (specFrameFor compress)).flatten := by
    unfold flatSrc
    rw [List.map_map]
    congr 1
    apply List.map_congr_left
    intro b hb
    exact Bytes.toList_ofList _
  have hg2 : goodSrc ((splitChunks (S.size + 1) S).map
      (fun b => Bytes.ofList (specFrameFor compress b))) := by
    intro x hx
    obtain ⟨b, hb, hxb⟩ := List.mem_map.mp hx
    rw [← hxb]
    show 0 < (Bytes.ofList (specFrameFor compress b)).size
    rw [Bytes.size_ofList, specFrameFor_eq_chunkListOf, chunkListOf_length]
    omega
  have hgood1 : goodSrc [encode compress S] := by
    intro x hx
    have hx2 : x = encode compress S := by simpa using hx
    rw [hx2]
    show 0 < ((Bytes.ofList STREAM_IDENTIFIER).append
      (SnappyFramedEncoder.write compress S).1).size
    rw [Bytes.size_append]
    have h10 : (Bytes.ofList STREAM_IDENTIFIER).size = 10 := rfl
    omega
  have hflat1 : flatSrc [encode compress S] =
      chunkListOf 0xFF [0x73, 0x4E, 0x61, 0x50, 0x70, 0x59] ++
        flatSrc ((splitChunks (S.size + 1) S).map
          (fun b => Bytes.ofList (specFrameFor compress b))) := by
    have he : flatSrc [encode compress S] = (encode compress S).toList := by
      simp [flatSrc]
    rw [he, hflat2]
    show ((Bytes.ofList STREAM_IDENTIFIER).append
      (SnappyFramedEncoder.write compress S).1).toList = _
    rw [Bytes.toList_append, Bytes.toList_ofList, write_toList]
    have hm : (splitChunks (S.size + 1) S).map
        (fun b => (frameFor compress b).toList) =
        (splitChunks (S.size + 1) S).map (specFrameFor compress) :=
      List.map_congr_left fun b hb => frameFor_toList compress b
    rw [hm]
    congr 1
  rw [decodeSource_skip uncompress hext CrcMode.Verify 0xFF
    [0x73, 0x4E, 0x61, 0x50, 0x70, 0x59] [encode compress S]
    ((splitChunks (S.size + 1) S).map
      (fun b => Bytes.ofList (specFrameFor compress b)))
    hgood1 hg2 (by omega) (by omega) (by norm_num) hflat1]
  rw [decodeSource_frames uncompress compress hext hleft hbound
    CrcMode.Verify (splitChunks (S.size + 1) S) _ hg2 hflat2 hmem]
  rw [splitChunks_flatten (S.size + 1) S (by omega)]

/-- The roundtrip at a concrete instance: the list-normalising identity
compressor and decompressor on the 3-byte input `[1, 2, 3]`. -/
theorem C1_amended_witness :
    decode (fun c => .ok (Bytes.ofList c.toList)) CrcMode.Verify
      (encode (fun b => Bytes.ofList b.toList) (Bytes.ofList [1, 2, 3])) =
      .ok [1, 2, 3] := by
  have h := C1_amended_roundtrip (fun b => Bytes.ofList b.toList)
    (fun c => .ok (Bytes.ofList c.toList))
    (fun a b h => by simp only [h])
    (fun b hb => ⟨Bytes.ofList b.toList, by simp [Bytes.toList_ofList],
      Bytes.toList_ofList _⟩)
    (fun b hb => by
      have h2 : b.size ≤ 65536 := hb
      show 4 + (Bytes.ofList b.toList).size < 16777216
      simp only [Bytes.size_ofList, Bytes.length_toList]
      omega)
    (Bytes.ofList [1, 2, 3])
  simpa using h

end SnappyFramed
